import Mathlib

/-!
Verification development for the Connect 4 Arduino game (`connect4.ino`).

The board model, win detector, scoring, round reset and the heuristic AI
engine are embedded as executable Lean functions translated from the
source.  Machine integers are modelled as `Nat`/`Int`; the `uint16_t`
scores wrap at `2 ^ 16` where the source increments them.
-/

set_option maxRecDepth 200000

namespace Connect4

/-- Cell states: `EMPTY`, `PLAYER1`, `PLAYER2` (source constants 0/1/2). -/
inductive Cell where
  | empty : Cell
  | p1 : Cell
  | p2 : Cell
deriving DecidableEq, Repr

/-- The board: `ROWS = 6` rows by `COLS = 7` columns, row 0 at the bottom
(`uint8_t board[ROWS][COLS]`). -/
abbrev Board := Fin 6 → Fin 7 → Cell

/-- The winning-cells mask (`bool winningCells[ROWS][COLS]`). -/
abbrev Mask := Fin 6 → Fin 7 → Bool

/-- The bounds check `r >= 0 && r < ROWS && c >= 0 && c < COLS` used by the
source before any indexed access with signed offsets. -/
def inBounds (r c : Int) : Bool :=
  0 ≤ r && r < 6 && 0 ≤ c && c < 7

/-- Read `board[r][c]` at possibly signed coordinates.  The source only
reads after an explicit bounds check, so the default value for
out-of-bounds coordinates is never observed. -/
def getCell (b : Board) (r c : Int) : Cell :=
  if h : 0 ≤ r ∧ r < 6 ∧ 0 ≤ c ∧ c < 7 then
    b ⟨r.toNat, by omega⟩ ⟨c.toNat, by omega⟩
  else Cell.empty

/-- Read `winningCells[r][c]` at possibly signed coordinates. -/
def getMask (w : Mask) (r c : Int) : Bool :=
  if h : 0 ≤ r ∧ r < 6 ∧ 0 ≤ c ∧ c < 7 then
    w ⟨r.toNat, by omega⟩ ⟨c.toNat, by omega⟩
  else false

/-- `board[r][c] = v` as a functional update. -/
def setCell (b : Board) (r : Fin 6) (c : Fin 7) (v : Cell) : Board :=
  fun r' c' => if r' = r ∧ c' = c then v else b r' c'

/-- The loop body of `findEmptyRow`, scanning rows `i, i+1, ...` upward;
`fuel` bounds the remaining iterations (the source loop runs at most
`ROWS` times). -/
def findRow (b : Board) (c : Fin 7) : Nat → Nat → Option (Fin 6)
  | 0, _ => none
  | fuel + 1, i =>
    if h : i < 6 then
      if b ⟨i, h⟩ c = Cell.empty then some ⟨i, h⟩ else findRow b c fuel (i + 1)
    else none

/-- `findEmptyRow(col)`: the lowest empty row of a column, scanning row 0
upward; `none` models the source's `-1` (column full). -/
def findEmptyRow (b : Board) (c : Fin 7) : Option (Fin 6) :=
  findRow b c 6 0

/-- `checkDraw()`: the board is full iff every top-row (`ROWS - 1`) cell is
occupied. -/
def checkDraw (b : Board) : Bool :=
  (List.finRange 7).all fun c => b ⟨5, by omega⟩ c != Cell.empty

/-- The 4 cells probed from `(row, col)` in direction `(dRow, dCol)`
(`row + i * dRow`, `col + i * dCol` for `i = 0..3`). -/
def lineCells (row col : Nat) (dRow dCol : Int) : List (Int × Int) :=
  (List.range 4).map fun i : Nat =>
    ((row : Int) + (i : Int) * dRow, (col : Int) + (i : Int) * dCol)

/-- `checkDirection(row, col, dRow, dCol, player)`: the 4 consecutive cells
are in bounds and belong to `player`, and at most 1 of them is already
marked in the winning-cells mask (`alreadyMarked <= 1`). -/
def checkDirection (b : Board) (w : Mask) (row col : Nat) (dRow dCol : Int)
    (player : Cell) : Bool :=
  ((lineCells row col dRow dCol).all fun rc =>
      inBounds rc.1 rc.2 && (getCell b rc.1 rc.2 == player)) &&
  ((lineCells row col dRow dCol).countP fun rc => getMask w rc.1 rc.2) ≤ 1

/-- `markWinningLine(row, col, dRow, dCol)`: set the 4 cells of the line in
the winning-cells mask. -/
def markWinningLine (w : Mask) (row col : Nat) (dRow dCol : Int) : Mask :=
  fun r c =>
    w r c ||
      (lineCells row col dRow dCol).any fun rc =>
        rc.1 == (r : Int) && rc.2 == (c : Int)

/-- The scan state of `checkWin`: the winning-cells mask and the
`winCount` accumulated so far. -/
structure WinScan where
  mask : Mask
  count : Nat

/-- One guarded direction test of `checkWin`'s inner loop: when the guard
and `checkDirection` pass, mark the line and bump `winCount`. -/
def stepDir (b : Board) (player : Cell) (row col : Nat) (guard : Bool)
    (dRow dCol : Int) (s : WinScan) : WinScan :=
  if guard && checkDirection b s.mask row col dRow dCol player then
    { mask := markWinningLine s.mask row col dRow dCol, count := s.count + 1 }
  else s

/-- The four direction tests of `checkWin` at one position, in source
order: horizontal (`c <= COLS-4`), vertical (`r <= ROWS-4`), diagonal
up-right (`r <= ROWS-4 && c <= COLS-4`), diagonal up-left
(`r <= ROWS-4 && c >= 3`). -/
def scanCell (b : Board) (player : Cell) (s : WinScan) (rc : Nat × Nat) :
    WinScan :=
  let r := rc.1; let c := rc.2
  (stepDir b player r c (decide (r ≤ 2) && decide (c ≥ 3)) 1 (-1)
    (stepDir b player r c (decide (r ≤ 2) && decide (c ≤ 3)) 1 1
      (stepDir b player r c (decide (r ≤ 2)) 1 0
        (stepDir b player r c (decide (c ≤ 3)) 0 1 s))))

/-- All `(r, c)` positions in `checkWin`'s scan order (`r` outer 0..5,
`c` inner 0..6). -/
def scanPositions : List (Nat × Nat) :=
  (List.range 6).flatMap fun r => (List.range 7).map fun c => (r, c)

/-- The full scan of `checkWin(player)` starting from a cleared
winning-cells mask: returns the final mask and `winCount`. -/
def checkWinScan (b : Board) (player : Cell) : WinScan :=
  scanPositions.foldl (scanCell b player) ⟨fun _ _ => false, 0⟩

/-- Top-level game states (the source's `STATE_*` constants). -/
inductive GState where
  | modeSelect | aiLevelSelect | playing | win | draw | score | grandWin
deriving DecidableEq, Repr

/-- The game-model part of the global state: board, current player,
game state, winning-cells mask, round winner, cursor and both
`uint16_t` scores. -/
structure GameSt where
  board : Board
  currentPlayer : Cell
  gameState : GState
  winningCells : Mask
  winner : Cell
  cursorCol : Fin 7
  scoreP1 : Nat
  scoreP2 : Nat

/-- `(currentPlayer == PLAYER1) ? PLAYER2 : PLAYER1`. -/
def otherPlayer (p : Cell) : Cell :=
  if p = Cell.p1 then Cell.p2 else Cell.p1

/-- `checkWin(player)`: rescan the whole board, mark every counted line,
and when `winCount > 0` record the winner and add `winCount` to that
player's score (`uint16_t` addition).  Returns `winCount > 0` with the
updated state. -/
def checkWin (g : GameSt) (player : Cell) : Bool × GameSt :=
  let s := checkWinScan g.board player
  if s.count > 0 then
    (true,
      { g with
        winningCells := s.mask
        winner := player
        scoreP1 := if player = Cell.p1 then (g.scoreP1 + s.count) % 65536 else g.scoreP1
        scoreP2 := if player = Cell.p1 then g.scoreP2 else (g.scoreP2 + s.count) % 65536 })
  else (false, { g with winningCells := s.mask })

/-- `dropPiece(col)`: place the current player's piece on the lowest empty
row; on a full column fail without touching the state; otherwise check
win then draw, and only when neither ends the round switch the player. -/
def dropPiece (g : GameSt) (col : Fin 7) : Bool × GameSt :=
  match findEmptyRow g.board col with
  | none => (false, g)
  | some row =>
    let g1 := { g with board := setCell g.board row col g.currentPlayer }
    let r := checkWin g1 g1.currentPlayer
    if r.1 then (true, { r.2 with gameState := GState.win })
    else if checkDraw r.2.board then (true, { r.2 with gameState := GState.draw })
    else (true, { r.2 with currentPlayer := otherPlayer r.2.currentPlayer })

/-- The all-empty board. -/
def emptyBoard : Board := fun _ _ => Cell.empty

/-- `resetGame()`: clear the board and the winning-cells mask; if the
previous round had a winner the loser becomes the current player,
otherwise the current player is kept; then return to `STATE_PLAYING`. -/
def resetGame (g : GameSt) : GameSt :=
  { board := emptyBoard
    winningCells := fun _ _ => false
    currentPlayer :=
      if g.winner ≠ Cell.empty then
        (if g.winner = Cell.p1 then Cell.p2 else Cell.p1)
      else g.currentPlayer
    gameState := GState.playing
    cursorCol := ⟨3, by omega⟩
    winner := Cell.empty
    scoreP1 := g.scoreP1
    scoreP2 := g.scoreP2 }

/-- One in-round move: the state machine only calls `dropPiece` while in
`STATE_PLAYING`. -/
def playMove (g : GameSt) (col : Fin 7) : GameSt :=
  if g.gameState = GState.playing then (dropPiece g col).2 else g

/-! ### The heuristic AI engine -/

/-- The while-loop of `countInDirection`, walking from `(r, c)` by
`(dRow, dCol)` while in bounds and on `player`'s cells; `fuel` bounds the
iterations (any nonzero direction leaves the 6 x 7 grid within 7 steps). -/
def countWalk (b : Board) (dRow dCol : Int) (player : Cell) :
    Nat → Int → Int → Nat
  | 0, _, _ => 0
  | fuel + 1, r, c =>
    if inBounds r c && (getCell b r c == player) then
      countWalk b dRow dCol player fuel (r + dRow) (c + dCol) + 1
    else 0

/-- `countInDirection(row, col, dRow, dCol, player)`: the number of
consecutive `player` cells starting at `(row, col)` in the given
direction. -/
def countInDirection (b : Board) (row : Fin 6) (col : Fin 7)
    (dRow dCol : Int) (player : Cell) : Nat :=
  countWalk b dRow dCol player 42 (row : Int) (col : Int)

/-- `aiCheckWin(row, col, player)`: does the board contain a 4-in-a-row of
`player` through `(row, col)` — horizontal windows containing `col`,
the vertical window ending at `row`, and every diagonal window through
the cell, exactly as the source enumerates them. -/
def aiCheckWin (b : Board) (row : Fin 6) (col : Fin 7) (p : Cell) : Bool :=
  ((List.range 4).any fun k =>
    let s : Int := (col : Int) - 3 + k
    decide (0 ≤ s) && decide (s ≤ 3) &&
    ((List.range 4).all fun i => getCell b (row : Int) (s + i) == p)) ||
  (decide ((row : Nat) ≥ 3) &&
    ((List.range 4).all fun i => getCell b ((row : Int) - i) (col : Int) == p)) ||
  ((List.range 4).any fun k =>
    let sr : Int := (row : Int) + k - 3
    let sc : Int := (col : Int) + k - 3
    decide (0 ≤ sr) && decide (sr ≤ 2) && decide (0 ≤ sc) && decide (sc ≤ 3) &&
    ((List.range 4).all fun i => getCell b (sr + i) (sc + i) == p)) ||
  ((List.range 4).any fun k =>
    let sr : Int := (row : Int) + k - 3
    let sc : Int := (col : Int) - (k - 3)
    decide (0 ≤ sr) && decide (sr ≤ 2) && decide (3 ≤ sc) && decide (sc < 7) &&
    ((List.range 4).all fun i => getCell b (sr + i) (sc - i) == p))

/-- One column of the level-7 probe loop: speculatively drop `p`, count a
threat when `aiCheckWin` fires, and remove the probe again. -/
def probeStep (p : Cell) (acc : Nat × Board) (c : Fin 7) : Nat × Board :=
  match findEmptyRow acc.2 c with
  | none => acc
  | some r =>
    ((if aiCheckWin (setCell acc.2 r c p) r c p then acc.1 + 1 else acc.1),
      setCell (setCell acc.2 r c p) r c Cell.empty)

/-- The level-7 probe loop over all columns: the number of columns whose
speculative drop of `p` wins, together with the board it leaves. -/
def probeThreats (b : Board) (p : Cell) : Nat × Board :=
  (List.finRange 7).foldl (probeStep p) (0, b)

/-- The `NIVEAU 3+` block: substitute the opponent's piece at the landing
cell, test its win, restore the player's piece.  Score and resulting
board. -/
def tier3 (lvl : Nat) (b1 : Board) (row : Fin 6) (col : Fin 7)
    (player opponent : Cell) : Int × Board :=
  if lvl ≥ 3 then
    ((if aiCheckWin (setCell b1 row col opponent) row col opponent
        then 500 else 0),
      setCell (setCell b1 row col opponent) row col player)
  else (0, b1)

/-- The per-axis run bonus shared by the `NIVEAU 4+` (threshold 2, +20)
and `NIVEAU 5+` (threshold 3, +50) blocks: both count the same
directional runs through the landing cell. -/
def runBonus (b3 : Board) (row : Fin 6) (col : Fin 7) (player : Cell)
    (t : Nat) (v : Int) : Int :=
  (if countInDirection b3 row col 0 (-1) player +
      countInDirection b3 row col 0 1 player - 1 ≥ t then v else 0) +
  (if countInDirection b3 row col (-1) 0 player ≥ t then v else 0) +
  (if countInDirection b3 row col (-1) (-1) player +
      countInDirection b3 row col 1 1 player - 1 ≥ t then v else 0) +
  (if countInDirection b3 row col (-1) 1 player +
      countInDirection b3 row col 1 (-1) player - 1 ≥ t then v else 0)

/-- The `NIVEAU 6+` block: stability bonus plus horizontal/vertical
opponent 3-run blocking (opponent piece substituted, then restored). -/
def tier6 (lvl : Nat) (b3 : Board) (row : Fin 6) (col : Fin 7)
    (player opponent : Cell) : Int × Board :=
  if lvl ≥ 6 then
    (((if (row : Nat) > 0 then (5 : Int) else 0) +
      (if countInDirection (setCell b3 row col opponent) row col 0 (-1)
            opponent +
          countInDirection (setCell b3 row col opponent) row col 0 1
            opponent - 1 ≥ 3 then 40 else 0) +
      (if countInDirection (setCell b3 row col opponent) row col (-1) 0
          opponent ≥ 3 then 40 else 0)),
      setCell (setCell b3 row col opponent) row col player)
  else (0, b3)

/-- The `NIVEAU 7` block: stack a second own piece above the landing cell
and count winning follow-up columns (`+200` for a fork); then do the same
with two opponent pieces (`+150` to deny an enemy fork).  The opponent's
piece is left at the landing cell, exactly as in the source (the caller
overwrites it with `EMPTY`). -/
def tier7 (lvl : Nat) (b5 : Board) (row : Fin 6) (col : Fin 7)
    (player opponent : Cell) : Int × Board :=
  if h7 : lvl ≥ 7 ∧ (row : Nat) < 5 then
    let rowUp : Fin 6 := ⟨(row : Nat) + 1, by omega⟩
    let pr := probeThreats (setCell b5 rowUp col player) player
    let b8 := setCell pr.2 rowUp col Cell.empty
    let sTrap : Int := if pr.1 ≥ 2 then 200 else 0
    let b9 := setCell b8 row col opponent
    let t7b : Int × Board :=
      if (row : Nat) < 5 then
        let pr2 := probeThreats (setCell b9 rowUp col opponent) opponent
        ((if pr2.1 ≥ 2 then 150 else 0), setCell pr2.2 rowUp col Cell.empty)
      else (0, b9)
    (sTrap + t7b.1, t7b.2)
  else (0, b5)

/-- `evaluatePosition(col, player)` at AI level `lvl`, with the in-place
board mutations threaded explicitly: returns the score and the board as
the function leaves it. -/
def evaluatePositionSt (lvl : Nat) (b : Board) (col : Fin 7) (player : Cell) :
    Int × Board :=
  match findEmptyRow b col with
  | none => (-1000, b)
  | some row =>
    let opponent := if player = Cell.p1 then Cell.p2 else Cell.p1
    let b1 := setCell b row col player
    if lvl ≥ 1 && aiCheckWin b1 row col player then
      (1000, setCell b1 row col Cell.empty)
    else
      let s2 : Int := if lvl ≥ 2 then (3 - |(col : Int) - 3|) * 2 else 0
      let t3 := tier3 lvl b1 row col player opponent
      let s4 : Int := if lvl ≥ 4 then runBonus t3.2 row col player 2 20 else 0
      let s5 : Int := if lvl ≥ 5 then runBonus t3.2 row col player 3 50 else 0
      let t6 := tier6 lvl t3.2 row col player opponent
      let t7 := tier7 lvl t6.2 row col player opponent
      (s2 + t3.1 + s4 + s5 + t6.1 + t7.1, setCell t7.2 row col Cell.empty)

/-- The score `evaluatePosition` returns. -/
def evaluatePosition (lvl : Nat) (b : Board) (col : Fin 7) (player : Cell) :
    Int :=
  (evaluatePositionSt lvl b col player).1

/-- The running best of `aiChooseColumn`: best score so far, the first
column attaining it, and the list of all columns tied at it. -/
structure ChooseSt where
  bestScore : Int
  bestCol : Fin 7
  bestCols : List (Fin 7)

/-- One iteration of `aiChooseColumn`'s loop: skip full columns, start a
new tie list on a strictly better score, extend it on an equal score. -/
def chooseStep (lvl : Nat) (b : Board) (s : ChooseSt) (c : Fin 7) : ChooseSt :=
  if (findEmptyRow b c).isSome then
    let score := evaluatePosition lvl b c Cell.p2
    if s.bestScore < score then ⟨score, c, [c]⟩
    else if score = s.bestScore then ⟨s.bestScore, s.bestCol, s.bestCols ++ [c]⟩
    else s
  else s

/-- The loop's starting state: `bestScore = -2000`, `bestCol = 3`, no
ties recorded yet. -/
def chooseInit : ChooseSt := ⟨-2000, ⟨3, by omega⟩, []⟩

/-- `aiChooseColumn()`: evaluate every column for `PLAYER2`, then pick the
best column, drawing `rand` (the injected `random(bestCount)` source,
reduced mod the tie count) among ties. -/
def aiChooseColumn (lvl : Nat) (b : Board) (rand : Nat → Nat) : Fin 7 :=
  let s := (List.finRange 7).foldl (chooseStep lvl b) chooseInit
  if h : 1 < s.bestCols.length then
    s.bestCols.get ⟨rand s.bestCols.length % s.bestCols.length,
      Nat.mod_lt _ (by omega)⟩
  else s.bestCol

/-! ### The system state around the game: timers, buttons, modes -/

/-- The remaining global state: hold tracking for button 4, the turn
timer, debounce state, and the mode/level-selection bookkeeping. -/
structure Sys where
  game : GameSt
  button4HoldStart : Nat
  button4WasHeldForScore : Bool
  button4Blocked : Bool
  showingHoldScore : Bool
  scorePauseStart : Nat
  turnStartTime : Nat
  buttonState : Fin 7 → Bool
  lastButtonPress : Fin 7 → Nat
  gameMode : Nat
  aiLevel : Nat
  aiMode : Bool
  modeConfirmed : Bool
  modeSelectStart : Nat
  modeConfirmStart : Nat
  scoreDisplayStart : Nat
  winAnimationStart : Nat

/-- `dropPiece(col)` at the system level: identical to `dropPiece` on the
game state, and it stamps `winAnimationStart` when the placement ends
the round. -/
def sysDropPiece (s : Sys) (col : Fin 7) (now : Nat) : Bool × Sys :=
  match findEmptyRow s.game.board col with
  | none => (false, s)
  | some row =>
    let g1 := { s.game with
                  board := setCell s.game.board row col s.game.currentPlayer }
    let r := checkWin g1 g1.currentPlayer
    if r.1 then
      (true, { s with game := { r.2 with gameState := GState.win },
                      winAnimationStart := now })
    else if checkDraw r.2.board then
      (true, { s with game := { r.2 with gameState := GState.draw },
                      winAnimationStart := now })
    else
      (true, { s with game :=
        { r.2 with currentPlayer := otherPlayer r.2.currentPlayer } })

/-- `SCORE_HOLD_TIME`: 2 seconds of holding button 4 shows the score. -/
def scoreHoldTime : Nat := 2000

/-- `checkButton4Hold()`: the hold/score/drop state machine for button 4
(column index 3).  `btn4Pressed` is the raw instantaneous reading and
`now` the value every `millis()` call returns during this invocation.
The returned `Bool` tells the loop to skip button 4 in normal button
processing. -/
def checkButton4Hold (s : Sys) (btn4Pressed : Bool) (now : Nat) : Bool × Sys :=
  if s.button4Blocked then
    (true, if btn4Pressed then s else { s with button4Blocked := false })
  else if s.game.gameState = GState.playing then
    if btn4Pressed then
      if s.button4HoldStart = 0 then
        (true, { s with button4HoldStart := now,
                        button4WasHeldForScore := false })
      else if now - s.button4HoldStart ≥ scoreHoldTime then
        let s1 :=
          if ¬s.showingHoldScore then
            { s with showingHoldScore := true, scorePauseStart := now }
          else s
        (true, { s1 with button4WasHeldForScore := true })
      else (true, s)
    else
      let s1 :=
        if s.showingHoldScore then
          { s with turnStartTime := s.turnStartTime + (now - s.scorePauseStart),
                   showingHoldScore := false }
        else if s.button4HoldStart > 0 ∧ s.button4WasHeldForScore = false then
          (sysDropPiece s ⟨3, by omega⟩ now).2
        else s
      (false, { s1 with button4HoldStart := 0, button4WasHeldForScore := false })
  else
    (false, { s with
      button4Blocked := if btn4Pressed then true else s.button4Blocked
      button4HoldStart := 0
      button4WasHeldForScore := false
      showingHoldScore := false })

/-- `selectMode(mode)` (every button index is `<= 6`). -/
def selectMode (s : Sys) (mode : Fin 7) (now : Nat) : Sys :=
  { s with gameMode := mode, aiMode := false, modeConfirmed := true,
           modeConfirmStart := now }

/-- `selectAILevel(level)`: button indices 0-6 select levels 1-7. -/
def selectAILevel (s : Sys) (level : Fin 7) (now : Nat) : Sys :=
  { s with aiLevel := (level : Nat) + 1, modeConfirmed := true,
           modeConfirmStart := now }

/-- `startModeSelection()`. -/
def startModeSelection (s : Sys) (now : Nat) : Sys :=
  { s with game := { s.game with gameState := GState.modeSelect }
           modeSelectStart := now, modeConfirmed := false, gameMode := 0 }

/-- `startAILevelSelection()`. -/
def startAILevelSelection (s : Sys) (now : Nat) : Sys :=
  { s with game := { s.game with gameState := GState.aiLevelSelect }
           modeSelectStart := now, modeConfirmed := false, aiLevel := 1 }

/-- `POINTS_TO_WIN`. -/
def pointsToWin : Nat := 7

/-- `handleButtonPress(col)`: the per-state button dispatch. -/
def handleButtonPress (s : Sys) (col : Fin 7) (now : Nat) : Sys :=
  if s.game.gameState = GState.modeSelect then
    if ¬s.modeConfirmed then selectMode s col now else s
  else if s.game.gameState = GState.aiLevelSelect then
    if ¬s.modeConfirmed then selectAILevel s col now else s
  else if s.game.gameState = GState.playing then
    if s.aiMode ∧ s.game.currentPlayer = Cell.p2 then s
    else
      let s1 := { s with game := { s.game with cursorCol := col } }
      let s2 := (sysDropPiece s1 col now).2
      { s2 with turnStartTime := now }
  else if s.game.gameState = GState.grandWin then
    let s1 := { s with game := { s.game with
        scoreP1 := 0, scoreP2 := 0, currentPlayer := Cell.p1,
        winner := Cell.empty, board := emptyBoard,
        winningCells := fun _ _ => false } }
    if s.aiMode then startAILevelSelection s1 now else startModeSelection s1 now
  else if s.game.gameState = GState.win ∨ s.game.gameState = GState.draw then
    if s.game.scoreP1 ≥ pointsToWin then
      { s with game := { s.game with gameState := GState.grandWin,
                                     winner := Cell.p1 } }
    else if s.game.scoreP2 ≥ pointsToWin then
      { s with game := { s.game with gameState := GState.grandWin,
                                     winner := Cell.p2 } }
    else
      { s with game := { s.game with gameState := GState.score }
               scoreDisplayStart := now }
  else if s.game.gameState = GState.score then
    { s with game := resetGame s.game, turnStartTime := now }
  else s

/-- One button of `readButtons()`: debounced rising edge dispatches
`handleButtonPress`; a released button clears its latched state. -/
def processButton (s : Sys) (pressed : Fin 7 → Bool) (now : Nat) (i : Fin 7) :
    Sys :=
  if pressed i ∧ ¬s.buttonState i then
    if now - s.lastButtonPress i > 50 then
      let s1 := { s with
        lastButtonPress := fun j => if j = i then now else s.lastButtonPress j
        buttonState := fun j => if j = i then true else s.buttonState j }
      handleButtonPress s1 i now
    else s
  else if ¬pressed i then
    { s with buttonState := fun j => if j = i then false else s.buttonState j }
  else s

/-- `readButtons()`: process all 7 buttons in order. -/
def readButtons (s : Sys) (pressed : Fin 7 → Bool) (now : Nat) : Sys :=
  (List.finRange 7).foldl (fun st i => processButton st pressed now i) s

/-- The button-handling phase of `loop()`: run `checkButton4Hold` first;
when it asks to block button 4, process the other six buttons only,
otherwise run the normal `readButtons`. -/
def loopButtonPhase (s : Sys) (pressed : Fin 7 → Bool) (now : Nat) : Sys :=
  let r := checkButton4Hold s (pressed ⟨3, by omega⟩) now
  if r.1 then
    (List.finRange 7).foldl
      (fun st i =>
        if i = (⟨3, by omega⟩ : Fin 7) then st
        else processButton st pressed now i) r.2
  else readButtons r.2 pressed now

/-! ### Spec-side formulation of the win-detector scan

These definitions follow the specification's wording ("scanning every
position and each of the 4 directions ..., a 4-in-a-row of that player's
cells counts as a new line only if at most 1 of its 4 cells is already
marked from a line found earlier in the same scan") and are compared with
the embedded `checkWinScan`. -/

/-- The 4 direction vectors in the source's scan order: horizontal,
vertical, diagonal up-right, diagonal up-left. -/
def directions : List (Int × Int) := [(0, 1), (1, 0), (1, 1), (1, -1)]

/-- A candidate line: a starting position with a direction. -/
abbrev LineId := (Nat × Nat) × (Int × Int)

/-- All position/direction pairs in scan order. -/
def scanLines : List LineId :=
  scanPositions.flatMap fun rc => directions.map fun d => (rc, d)

/-- The pair is a 4-in-a-row of `p`'s cells (all 4 cells in bounds and
belonging to `p`). -/
def isPlayerLine (b : Board) (p : Cell) (l : LineId) : Bool :=
  (lineCells l.1.1 l.1.2 l.2.1 l.2.2).all fun rc =>
    inBounds rc.1 rc.2 && (getCell b rc.1 rc.2 == p)

/-- How many of the line's 4 cells are already marked. -/
def overlapCount (w : Mask) (l : LineId) : Nat :=
  (lineCells l.1.1 l.1.2 l.2.1 l.2.2).countP fun rc => getMask w rc.1 rc.2

/-- The overlap policy: a player line counts as a new line (marking its 4
cells and incrementing the counter) only when at most 1 of its cells is
already marked from a line found earlier in the same scan. -/
def greedyStep (s : WinScan) (l : LineId) : WinScan :=
  if overlapCount s.mask l ≤ 1 then
    { mask := markWinningLine s.mask l.1.1 l.1.2 l.2.1 l.2.2,
      count := s.count + 1 }
  else s

/-- The spec-side scan: greedily select, in scan order, the player lines
whose overlap with the already-selected lines is at most 1 cell. -/
def greedySelect (b : Board) (p : Cell) : WinScan :=
  ((scanLines).filter fun l => isPlayerLine b p l).foldl greedyStep
    ⟨fun _ _ => false, 0⟩

/-- `lineStep`: `checkWin`'s per-line action without the redundant loop
guards (bounds are already part of `checkDirection`). -/
def lineStep (b : Board) (p : Cell) (s : WinScan) (l : LineId) : WinScan :=
  if checkDirection b s.mask l.1.1 l.1.2 l.2.1 l.2.2 p then
    { mask := markWinningLine s.mask l.1.1 l.1.2 l.2.1 l.2.2,
      count := s.count + 1 }
  else s

/-! ### Generic fold lemmas -/

theorem foldl_flatMap {α β σ : Type} (f : σ → β → σ) (g : α → List β)
    (l : List α) (init : σ) :
    (l.flatMap g).foldl f init = l.foldl (fun s a => (g a).foldl f s) init := by
  induction l generalizing init with
  | nil => rfl
  | cons a l ih => simp only [List.flatMap_cons, List.foldl_append,
      List.foldl_cons, ih]

theorem foldl_ext {α σ : Type} (f g : σ → α → σ) (l : List α) (init : σ)
    (h : ∀ a ∈ l, ∀ s, f s a = g s a) :
    l.foldl f init = l.foldl g init := by
  induction l generalizing init with
  | nil => rfl
  | cons a l ih =>
    simp only [List.foldl_cons]
    rw [h a (by simp)]
    exact ih _ fun a ha s => h a (by simp [ha]) s

theorem foldl_filter_if {α σ : Type} (P : α → Bool) (Q : σ → α → Bool)
    (f : σ → α → σ) (l : List α) (init : σ) :
    l.foldl (fun s x => if P x && Q s x then f s x else s) init
      = (l.filter P).foldl (fun s x => if Q s x then f s x else s) init := by
  induction l generalizing init with
  | nil => rfl
  | cons a l ih =>
    by_cases h : P a = true
    · simp only [List.foldl_cons, List.filter_cons, h, if_true, Bool.true_and]
      exact ih _
    · simp only [List.foldl_cons, List.filter_cons, h,
        Bool.false_eq_true, if_false, Bool.and_eq_true] at *
      rw [if_neg (by simp [h])]
      exact ih _

/-! ### `findEmptyRow` characterization -/

theorem findRow_some (b : Board) (c : Fin 7) :
    ∀ (fuel i : Nat) (r : Fin 6), findRow b c fuel i = some r →
      b r c = Cell.empty ∧ i ≤ (r : Nat) ∧
        ∀ (j : Nat) (hj : j < 6), i ≤ j → j < (r : Nat) →
          b ⟨j, hj⟩ c ≠ Cell.empty := by
  intro fuel
  induction fuel with
  | zero => intro i r h; exact absurd h (by simp [findRow])
  | succ fuel ih =>
    intro i r h
    by_cases hi : i < 6
    · simp only [findRow, dif_pos hi] at h
      by_cases he : b ⟨i, hi⟩ c = Cell.empty
      · rw [if_pos he] at h
        have hr : r = ⟨i, hi⟩ := by injection h with h'; exact h'.symm
        subst hr
        refine ⟨he, le_refl _, fun j hj h1 h2 => ?_⟩
        rw [show ((⟨i, hi⟩ : Fin 6) : Nat) = i from rfl] at h2
        exact absurd (Nat.lt_of_le_of_lt h1 h2) (Nat.lt_irrefl i)
      · rw [if_neg he] at h
        obtain ⟨h1, h2, h3⟩ := ih (i + 1) r h
        refine ⟨h1, by omega, fun j hj hij hjr => ?_⟩
        by_cases hji : j = i
        · subst hji; exact he
        · exact h3 j hj (by omega) hjr
    · simp [findRow, dif_neg hi] at h

theorem findRow_none_of (b : Board) (c : Fin 7) :
    ∀ (fuel i : Nat),
      (∀ (j : Nat) (hj : j < 6), i ≤ j → b ⟨j, hj⟩ c ≠ Cell.empty) →
      findRow b c fuel i = none := by
  intro fuel
  induction fuel with
  | zero => intro i _; rfl
  | succ fuel ih =>
    intro i h
    by_cases hi : i < 6
    · simp only [findRow, dif_pos hi, if_neg (h i hi (le_refl _))]
      exact ih (i + 1) fun j hj hij => h j hj (by omega)
    · simp [findRow, dif_neg hi]

/-- `findEmptyRow` returns the lowest empty row: the cell is empty and
every cell below it in the column is occupied. -/
theorem findEmptyRow_some (b : Board) (c : Fin 7) (r : Fin 6)
    (h : findEmptyRow b c = some r) :
    b r c = Cell.empty ∧
      ∀ (j : Nat) (hj : j < 6), j < (r : Nat) → b ⟨j, hj⟩ c ≠ Cell.empty := by
  obtain ⟨h1, _, h3⟩ := findRow_some b c 6 0 r h
  exact ⟨h1, fun j hj hjr => h3 j hj (Nat.zero_le _) hjr⟩

/-- A column whose six cells are all occupied has no empty row. -/
theorem findEmptyRow_none (b : Board) (c : Fin 7)
    (h : ∀ r : Fin 6, b r c ≠ Cell.empty) : findEmptyRow b c = none :=
  findRow_none_of b c 6 0 fun j hj _ => h ⟨j, hj⟩

/-! ### `setCell` algebra -/

theorem setCell_self (b : Board) (r : Fin 6) (c : Fin 7) (v : Cell) :
    setCell b r c v r c = v := by simp [setCell]

theorem setCell_ne (b : Board) (r : Fin 6) (c : Fin 7) (v : Cell)
    (r' : Fin 6) (c' : Fin 7) (h : ¬(r' = r ∧ c' = c)) :
    setCell b r c v r' c' = b r' c' := by simp [setCell, h]

theorem setCell_setCell (b : Board) (r : Fin 6) (c : Fin 7) (v w : Cell) :
    setCell (setCell b r c v) r c w = setCell b r c w := by
  funext r' c'
  by_cases h : r' = r ∧ c' = c <;> simp [setCell, h]

theorem setCell_cancel (b : Board) (r : Fin 6) (c : Fin 7) (v : Cell)
    (h : b r c = v) : setCell b r c v = b := by
  funext r' c'
  by_cases hx : r' = r ∧ c' = c
  · obtain ⟨h1, h2⟩ := hx; subst h1; subst h2; simp [setCell, h]
  · simp [setCell, hx]

/-! ### The no-floating-pieces invariant and the piece counter -/

/-- No floating pieces: a non-empty cell at row `r > 0` sits on a
non-empty cell at row `r - 1` of the same column. -/
def grav (b : Board) : Prop :=
  ∀ (r : Fin 6) (c : Fin 7) (h : 0 < (r : Nat)),
    b r c ≠ Cell.empty → b ⟨(r : Nat) - 1, by omega⟩ c ≠ Cell.empty

instance gravDecidable (b : Board) : Decidable (grav b) := by
  unfold grav; infer_instance

/-- The number of occupied cells. -/
def cnt (b : Board) : Nat :=
  ∑ rc : Fin 6 × Fin 7, if b rc.1 rc.2 ≠ Cell.empty then 1 else 0

theorem grav_setCell (b : Board) (r : Fin 6) (c : Fin 7) (v : Cell)
    (hv : v ≠ Cell.empty) (hg : grav b) (he : b r c = Cell.empty)
    (hbelow : ∀ (j : Nat) (hj : j < 6), j < (r : Nat) →
      b ⟨j, hj⟩ c ≠ Cell.empty) :
    grav (setCell b r c v) := by
  intro r' c' hpos hne
  by_cases hx : r' = r ∧ c' = c
  · obtain ⟨hr, hc⟩ := hx
    subst hc
    have h1 : (r' : Nat) = (r : Nat) := by rw [hr]
    rw [setCell_ne b r c' v ⟨(r' : Nat) - 1, by omega⟩ c' (fun hcon => by
      have hv1 := congrArg Fin.val hcon.1
      simp only [Fin.val_mk] at hv1
      omega)]
    exact hbelow ((r' : Nat) - 1) (by omega) (by omega)
  · rw [setCell_ne b r c v r' c' hx] at hne
    by_cases hy : (⟨(r' : Nat) - 1, by omega⟩ : Fin 6) = r ∧ c' = c
    · rw [hy.1, hy.2, setCell_self]; exact hv
    · rw [setCell_ne b r c v _ _ hy]
      exact hg r' c' hpos hne

theorem cnt_setCell (b : Board) (r : Fin 6) (c : Fin 7) (v : Cell)
    (he : b r c = Cell.empty) (hv : v ≠ Cell.empty) :
    cnt (setCell b r c v) = cnt b + 1 := by
  classical
  unfold cnt
  rw [← Finset.sum_erase_add _ _ (Finset.mem_univ ((r, c) : Fin 6 × Fin 7)),
      ← Finset.sum_erase_add _ _ (Finset.mem_univ ((r, c) : Fin 6 × Fin 7))]
  have hoff : ∀ rc ∈ Finset.univ.erase ((r, c) : Fin 6 × Fin 7),
      (if setCell b r c v rc.1 rc.2 ≠ Cell.empty then 1 else 0)
        = if b rc.1 rc.2 ≠ Cell.empty then 1 else 0 := by
    intro rc hrc
    have hne : ¬(rc.1 = r ∧ rc.2 = c) := by
      intro ⟨h1, h2⟩
      exact (Finset.ne_of_mem_erase hrc) (Prod.ext h1 h2)
    rw [setCell_ne b r c v rc.1 rc.2 hne]
  rw [Finset.sum_congr rfl hoff]
  simp [setCell_self, he, hv]

theorem cnt_full (b : Board) (h : ∀ (r : Fin 6) (c : Fin 7),
    b r c ≠ Cell.empty) : cnt b = 42 := by
  unfold cnt
  rw [Finset.sum_congr rfl fun rc _ => if_pos (h rc.1 rc.2)]
  simp

/-- Empty cells propagate upward in a column under `grav`. -/
theorem grav_up (b : Board) (hg : grav b) (c : Fin 7) (j : Nat) (hj : j < 6)
    (he : b ⟨j, hj⟩ c = Cell.empty) :
    ∀ (j' : Nat) (hj' : j' < 6), j ≤ j' → b ⟨j', hj'⟩ c = Cell.empty := by
  intro j' hj' hle
  induction j' with
  | zero =>
    have : j = 0 := by omega
    subst this; exact he
  | succ k ih =>
    by_cases hk : j = k + 1
    · subst hk; exact he
    · have hk6 : k < 6 := by omega
      by_contra hne
      have := hg ⟨k + 1, hj'⟩ c (by simp) hne
      simp only at this
      exact this (ih hk6 (by omega))

/-- On a board with no floating pieces, a full top row means every cell is
occupied. -/
theorem full_of_checkDraw (b : Board) (hg : grav b)
    (hd : checkDraw b = true) :
    ∀ (r : Fin 6) (c : Fin 7), b r c ≠ Cell.empty := by
  intro r c hre
  have htop : b ⟨5, by omega⟩ c ≠ Cell.empty := by
    simp only [checkDraw, List.all_eq_true, List.mem_finRange, bne_iff_ne,
      ne_eq, forall_const] at hd
    exact hd c
  exact htop (grav_up b hg c (r : Nat) r.isLt (by simpa using hre) 5
    (by omega) (by omega))

/-! ### Equivalence of `checkWin`'s scan with the spec-side greedy scan -/

theorem lineCells_eq (row col : Nat) (dr dc : Int) :
    lineCells row col dr dc =
      [((row : Int), (col : Int)), ((row : Int) + dr, (col : Int) + dc),
       ((row : Int) + 2 * dr, (col : Int) + 2 * dc),
       ((row : Int) + 3 * dr, (col : Int) + 3 * dc)] := by
  unfold lineCells
  rw [show List.range 4 = [0, 1, 2, 3] from rfl]
  norm_num [Prod.ext_iff]

theorem checkDirection_bounds (b : Board) (w : Mask) (p : Cell)
    (row col : Nat) (dr dc : Int)
    (h : checkDirection b w row col dr dc p = true) :
    ∀ rc ∈ lineCells row col dr dc, inBounds rc.1 rc.2 = true := by
  intro rc hrc
  simp only [checkDirection, Bool.and_eq_true, List.all_eq_true] at h
  exact (h.1 rc hrc).1

/-- The 4th cell of a passing direction check is in bounds. -/
theorem checkDirection_last (b : Board) (w : Mask) (p : Cell)
    (row col : Nat) (dr dc : Int)
    (h : checkDirection b w row col dr dc p = true) :
    0 ≤ (row : Int) + 3 * dr ∧ (row : Int) + 3 * dr < 6 ∧
      0 ≤ (col : Int) + 3 * dc ∧ (col : Int) + 3 * dc < 7 := by
  have hm := checkDirection_bounds b w p row col dr dc h
    ((row : Int) + 3 * dr, (col : Int) + 3 * dc)
    (by rw [lineCells_eq]; simp)
  simp only [inBounds, Bool.and_eq_true, decide_eq_true_eq] at hm
  exact ⟨hm.1.1.1, hm.1.1.2, hm.1.2, hm.2⟩

theorem stepDir_h (b : Board) (p : Cell) (r c : Nat) (hc : c < 7)
    (s : WinScan) :
    stepDir b p r c (decide (c ≤ 3)) 0 1 s = lineStep b p s ((r, c), (0, 1)) := by
  by_cases h : c ≤ 3
  · simp [stepDir, lineStep, h]
  · have hf : checkDirection b s.mask r c 0 1 p = false := by
      by_contra hcon
      rw [Bool.not_eq_false] at hcon
      have := checkDirection_last b s.mask p r c 0 1 hcon
      omega
    simp [stepDir, lineStep, h, hf]

theorem stepDir_v (b : Board) (p : Cell) (r c : Nat) (s : WinScan) :
    stepDir b p r c (decide (r ≤ 2)) 1 0 s = lineStep b p s ((r, c), (1, 0)) := by
  by_cases h : r ≤ 2
  · simp [stepDir, lineStep, h]
  · have hf : checkDirection b s.mask r c 1 0 p = false := by
      by_contra hcon
      rw [Bool.not_eq_false] at hcon
      have := checkDirection_last b s.mask p r c 1 0 hcon
      omega
    simp [stepDir, lineStep, h, hf]

theorem stepDir_dur (b : Board) (p : Cell) (r c : Nat) (s : WinScan) :
    stepDir b p r c (decide (r ≤ 2) && decide (c ≤ 3)) 1 1 s
      = lineStep b p s ((r, c), (1, 1)) := by
  by_cases h : r ≤ 2 ∧ c ≤ 3
  · simp [stepDir, lineStep, h.1, h.2]
  · have hf : checkDirection b s.mask r c 1 1 p = false := by
      by_contra hcon
      rw [Bool.not_eq_false] at hcon
      have := checkDirection_last b s.mask p r c 1 1 hcon
      omega
    rcases Decidable.not_and_iff_or_not.mp h with h1 | h1 <;>
      simp [stepDir, lineStep, h1, hf]

theorem stepDir_dul (b : Board) (p : Cell) (r c : Nat) (s : WinScan) :
    stepDir b p r c (decide (r ≤ 2) && decide (c ≥ 3)) 1 (-1) s
      = lineStep b p s ((r, c), (1, -1)) := by
  by_cases h : r ≤ 2 ∧ c ≥ 3
  · simp [stepDir, lineStep, h.1, h.2]
  · have hf : checkDirection b s.mask r c 1 (-1) p = false := by
      by_contra hcon
      rw [Bool.not_eq_false] at hcon
      have := checkDirection_last b s.mask p r c 1 (-1) hcon
      omega
    rcases Decidable.not_and_iff_or_not.mp h with h1 | h1 <;>
      simp [stepDir, lineStep, h1, hf]

theorem scanCell_eq (b : Board) (p : Cell) (s : WinScan) (rc : Nat × Nat)
    (hc : rc.2 < 7) :
    scanCell b p s rc
      = (directions.map fun d => (rc, d)).foldl (lineStep b p) s := by
  obtain ⟨r, c⟩ := rc
  simp only [directions, List.map_cons, List.map_nil, List.foldl_cons,
    List.foldl_nil]
  show stepDir b p r c _ 1 (-1) (stepDir b p r c _ 1 1
    (stepDir b p r c _ 1 0 (stepDir b p r c _ 0 1 s))) = _
  rw [stepDir_h b p r c hc, stepDir_v, stepDir_dur, stepDir_dul]

theorem checkWinScan_eq_foldl (b : Board) (p : Cell) :
    checkWinScan b p = scanLines.foldl (lineStep b p) ⟨fun _ _ => false, 0⟩ := by
  unfold checkWinScan scanLines
  rw [foldl_flatMap]
  refine foldl_ext _ _ _ _ fun rc hrc s => ?_
  have hb : rc.2 < 7 := by
    simp only [scanPositions, List.mem_flatMap, List.mem_map,
      List.mem_range] at hrc
    obtain ⟨r, _, c, hc, he⟩ := hrc
    rw [← he]
    exact hc
  exact scanCell_eq b p s rc hb

theorem lineStep_eq (b : Board) (p : Cell) (s : WinScan) (l : LineId) :
    lineStep b p s l =
      if isPlayerLine b p l ∧ overlapCount s.mask l ≤ 1 then
        { mask := markWinningLine s.mask l.1.1 l.1.2 l.2.1 l.2.2,
          count := s.count + 1 }
      else s := by
  unfold lineStep
  refine if_congr ?_ rfl rfl
  simp [checkDirection, isPlayerLine, overlapCount]

theorem foldl_filter_prop {α σ : Type} (P : α → Bool) (Q : σ → α → Prop)
    [∀ s a, Decidable (Q s a)] (f : σ → α → σ) (l : List α) (init : σ) :
    l.foldl (fun s x => if P x ∧ Q s x then f s x else s) init
      = (l.filter P).foldl (fun s x => if Q s x then f s x else s) init := by
  induction l generalizing init with
  | nil => rfl
  | cons a l ih =>
    by_cases h : P a = true
    · simp only [List.foldl_cons, List.filter_cons, h, if_true]
      rw [show (if True ∧ Q init a then f init a else init)
            = (if Q init a then f init a else init) from
          if_congr (by simp) rfl rfl]
      exact ih _
    · simp only [List.foldl_cons, List.filter_cons]
      rw [if_neg (show ¬(P a = true ∧ Q init a) from fun hx => h hx.1),
        if_neg h]
      exact ih _

/-- C1: For every board and player, `checkWin` counts and marks winning
lines under the overlap policy: scanning every position and each of the
4 directions in order, a 4-in-a-row of the player's cells counts as a new
line (marking its 4 cells and incrementing the line counter) exactly when
at most 1 of its 4 cells is already marked from a line found earlier in
the same scan — i.e. the scan equals the spec-side greedy selection
`greedySelect`, in both the final winning-cells mask and the line count
that determines the points awarded. -/
theorem checkWinScan_eq_greedySelect (b : Board) (p : Cell) :
    checkWinScan b p = greedySelect b p := by
  rw [checkWinScan_eq_foldl]
  have h1 : scanLines.foldl (lineStep b p) ⟨fun _ _ => false, 0⟩
      = scanLines.foldl
        (fun (s : WinScan) (l : LineId) =>
          if isPlayerLine b p l ∧ overlapCount s.mask l ≤ 1 then
            { mask := markWinningLine s.mask l.1.1 l.1.2 l.2.1 l.2.2,
              count := s.count + 1 }
          else s) ⟨fun _ _ => false, 0⟩ :=
    foldl_ext _ _ _ _ fun l _ s => lineStep_eq b p s l
  rw [h1, foldl_filter_prop]
  rfl

/-! ### Branch lemmas for `checkWin` and `dropPiece` -/

theorem checkWin_pos (g : GameSt) (p : Cell)
    (h : 0 < (checkWinScan g.board p).count) :
    checkWin g p = (true,
      { g with
        winningCells := (checkWinScan g.board p).mask
        winner := p
        scoreP1 := if p = Cell.p1 then
          (g.scoreP1 + (checkWinScan g.board p).count) % 65536 else g.scoreP1
        scoreP2 := if p = Cell.p1 then g.scoreP2
          else (g.scoreP2 + (checkWinScan g.board p).count) % 65536 }) := by
  simp [checkWin, h]

theorem checkWin_zero (g : GameSt) (p : Cell)
    (h : (checkWinScan g.board p).count = 0) :
    checkWin g p = (false, { g with
      winningCells := (checkWinScan g.board p).mask }) := by
  simp [checkWin, h]

/-- A board given as a list of rows, row 0 (the bottom) first. -/
def mkBoard (l : List (List Cell)) : Board := fun r c =>
  (l.getD (r : Nat) []).getD (c : Nat) Cell.empty

/-- A fresh round state used to instantiate the theorems. -/
def demoStart : GameSt :=
  { board := emptyBoard
    currentPlayer := Cell.p1
    gameState := GState.playing
    winningCells := fun _ _ => false
    winner := Cell.empty
    cursorCol := ⟨3, by omega⟩
    scoreP1 := 0
    scoreP2 := 0 }

/-! ### C2: no floating pieces -/

theorem checkWin_board (g : GameSt) (p : Cell) :
    (checkWin g p).2.board = g.board := by
  by_cases h : 0 < (checkWinScan g.board p).count
  · rw [checkWin_pos g p h]
  · rw [checkWin_zero g p (by omega)]

theorem dropPiece_grav (g : GameSt) (col : Fin 7) (hg : grav g.board) :
    grav (dropPiece g col).2.board := by
  cases hfind : findEmptyRow g.board col with
  | none => simp only [dropPiece, hfind]; exact hg
  | some r =>
    obtain ⟨hemp, hbelow⟩ := findEmptyRow_some g.board col r hfind
    have hset : grav (setCell g.board r col g.currentPlayer) := by
      by_cases hp : g.currentPlayer = Cell.empty
      · rw [hp, setCell_cancel g.board r col Cell.empty hemp]
        exact hg
      · exact grav_setCell g.board r col g.currentPlayer hp hg hemp hbelow
    simp only [dropPiece, hfind]
    split
    · simpa [checkWin_board] using hset
    · split
      · simpa [checkWin_board] using hset
      · simpa [checkWin_board] using hset

theorem playMove_grav (g : GameSt) (col : Fin 7) (hg : grav g.board) :
    grav (playMove g col).board := by
  unfold playMove
  split
  · exact dropPiece_grav g col hg
  · exact hg

/-- C2: For every sequence of piece drops (drops on full columns are
refused by `findEmptyRow`), the board never contains a floating piece:
every occupied cell at row `r > 0` has an occupied cell at `(r-1)` in the
same column, because placement always fills the lowest empty row. -/
theorem drops_no_floating_piece (g : GameSt) (moves : List (Fin 7))
    (hg : grav g.board) : grav ((moves.foldl playMove g).board) := by
  induction moves generalizing g with
  | nil => exact hg
  | cons m ms ih => exact ih (playMove g m) (playMove_grav g m hg)

/-- Witness for C2 at a concrete game prefix from the empty board. -/
theorem drops_no_floating_piece_witness :
    grav ((([3, 3, 2, 3, 2] : List (Fin 7)).foldl playMove demoStart).board) :=
  drops_no_floating_piece demoStart [3, 3, 2, 3, 2] (by decide)

/-! ### C3: dropping into a full column is a silent no-op -/

/-- C3: For every state and every column whose six cells are all
occupied, `dropPiece` returns failure and leaves the whole state — every
board cell, the current player, the scores and the game state —
unchanged. -/
theorem dropPiece_full_column_noop (g : GameSt) (col : Fin 7)
    (hfull : ∀ r : Fin 6, g.board r col ≠ Cell.empty) :
    dropPiece g col = (false, g) := by
  unfold dropPiece
  rw [findEmptyRow_none g.board col hfull]

/-- A state whose column 0 is completely full. -/
def fullColSt : GameSt :=
  { demoStart with
    board := fun r c =>
      if (c : Nat) = 0 then
        (if (r : Nat) % 2 = 0 then Cell.p1 else Cell.p2)
      else Cell.empty }

/-- Witness for C3: dropping into the full column 0 of `fullColSt`. -/
theorem dropPiece_full_column_noop_witness :
    dropPiece fullColSt 0 = (false, fullColSt) :=
  dropPiece_full_column_noop fullColSt 0 (by decide)

/-! ### `dropPiece` branch lemmas -/

theorem dropPiece_win (g : GameSt) (col : Fin 7) (r : Fin 6)
    (hfind : findEmptyRow g.board col = some r)
    (hk : 0 < (checkWinScan (setCell g.board r col g.currentPlayer)
      g.currentPlayer).count) :
    dropPiece g col = (true,
      { g with
        board := setCell g.board r col g.currentPlayer
        gameState := GState.win
        winningCells := (checkWinScan (setCell g.board r col g.currentPlayer)
          g.currentPlayer).mask
        winner := g.currentPlayer
        scoreP1 := if g.currentPlayer = Cell.p1 then
          (g.scoreP1 + (checkWinScan (setCell g.board r col g.currentPlayer)
            g.currentPlayer).count) % 65536 else g.scoreP1
        scoreP2 := if g.currentPlayer = Cell.p1 then g.scoreP2
          else (g.scoreP2 + (checkWinScan (setCell g.board r col g.currentPlayer)
            g.currentPlayer).count) % 65536 }) := by
  simp only [dropPiece, hfind]
  rw [checkWin_pos { g with board := setCell g.board r col g.currentPlayer }
    g.currentPlayer hk]
  rfl

theorem dropPiece_draw (g : GameSt) (col : Fin 7) (r : Fin 6)
    (hfind : findEmptyRow g.board col = some r)
    (hk : (checkWinScan (setCell g.board r col g.currentPlayer)
      g.currentPlayer).count = 0)
    (hd : checkDraw (setCell g.board r col g.currentPlayer) = true) :
    dropPiece g col = (true,
      { g with
        board := setCell g.board r col g.currentPlayer
        gameState := GState.draw
        winningCells := (checkWinScan (setCell g.board r col g.currentPlayer)
          g.currentPlayer).mask }) := by
  simp only [dropPiece, hfind]
  rw [checkWin_zero { g with board := setCell g.board r col g.currentPlayer }
    g.currentPlayer hk]
  simp [hd]

theorem dropPiece_continue (g : GameSt) (col : Fin 7) (r : Fin 6)
    (hfind : findEmptyRow g.board col = some r)
    (hk : (checkWinScan (setCell g.board r col g.currentPlayer)
      g.currentPlayer).count = 0)
    (hd : checkDraw (setCell g.board r col g.currentPlayer) = false) :
    dropPiece g col = (true,
      { g with
        board := setCell g.board r col g.currentPlayer
        winningCells := (checkWinScan (setCell g.board r col g.currentPlayer)
          g.currentPlayer).mask
        currentPlayer := otherPlayer g.currentPlayer }) := by
  simp only [dropPiece, hfind]
  rw [checkWin_zero { g with board := setCell g.board r col g.currentPlayer }
    g.currentPlayer hk]
  simp [hd]

/-! ### C4: exact, one-sided scoring -/

/-- C4: For every winning placement, if the win check counts `k ≥ 1`
lines for the player who just moved, that player's score increases by
exactly `k` (below the `uint16_t` wrap) and the other player's score is
unchanged. -/
theorem checkWin_scoring_exact (g : GameSt) (col : Fin 7) (r : Fin 6)
    (hfind : findEmptyRow g.board col = some r)
    (hk : 1 ≤ (checkWinScan (setCell g.board r col g.currentPlayer)
      g.currentPlayer).count) :
    (g.currentPlayer = Cell.p1 →
      g.scoreP1 + (checkWinScan (setCell g.board r col g.currentPlayer)
        g.currentPlayer).count < 65536 →
      (dropPiece g col).2.scoreP1
          = g.scoreP1 + (checkWinScan (setCell g.board r col g.currentPlayer)
              g.currentPlayer).count ∧
        (dropPiece g col).2.scoreP2 = g.scoreP2) ∧
    (g.currentPlayer = Cell.p2 →
      g.scoreP2 + (checkWinScan (setCell g.board r col g.currentPlayer)
        g.currentPlayer).count < 65536 →
      (dropPiece g col).2.scoreP2
          = g.scoreP2 + (checkWinScan (setCell g.board r col g.currentPlayer)
              g.currentPlayer).count ∧
        (dropPiece g col).2.scoreP1 = g.scoreP1) := by
  constructor
  · intro hp hlt
    rw [dropPiece_win g col r hfind (by omega)]
    simp only [hp] at hlt ⊢
    simp
    omega
  · intro hp hlt
    rw [dropPiece_win g col r hfind (by omega)]
    simp only [hp] at hlt ⊢
    simp
    omega

/-- A board where dropping `PLAYER1` into column 3 simultaneously
completes a horizontal and a diagonal 4-in-a-row sharing only the new
cell. -/
def c4Board : Board := mkBoard
  [[Cell.p1, Cell.p2, Cell.p2, Cell.p2],
   [Cell.p2, Cell.p1, Cell.p2, Cell.p2],
   [Cell.p2, Cell.p2, Cell.p1, Cell.p2],
   [Cell.p1, Cell.p1, Cell.p1]]

def c4St : GameSt := { demoStart with board := c4Board }

/-- Witness for C4: the double-line move awards exactly 2 points to the
mover and none to the opponent. -/
theorem checkWin_scoring_exact_witness :
    (checkWinScan (setCell c4St.board 3 3 Cell.p1) Cell.p1).count = 2 ∧
    (dropPiece c4St 3).2.scoreP1 = 2 ∧ (dropPiece c4St 3).2.scoreP2 = 0 := by
  refine ⟨by decide, ?_, ?_⟩
  · have h := (checkWin_scoring_exact c4St 3 3 (by decide) (by decide)).1
      rfl (by decide)
    rw [h.1]; decide
  · have h := (checkWin_scoring_exact c4St 3 3 (by decide) (by decide)).1
      rfl (by decide)
    rw [h.2]
    rfl

/-! ### C5: a winning placement is classified Win, never Draw -/

/-- C5: For every successful placement, if it completes at least one
line the resulting state is Win, even when it also fills the board; the
board-full check is consulted only when the placement did not win, and a
full board without a winning line is classified Draw. -/
theorem win_precedes_draw (g : GameSt) (col : Fin 7) (r : Fin 6)
    (hfind : findEmptyRow g.board col = some r) :
    (0 < (checkWinScan (setCell g.board r col g.currentPlayer)
        g.currentPlayer).count →
      (dropPiece g col).2.gameState = GState.win) ∧
    ((checkWinScan (setCell g.board r col g.currentPlayer)
        g.currentPlayer).count = 0 →
      checkDraw (setCell g.board r col g.currentPlayer) = true →
      (dropPiece g col).2.gameState = GState.draw) := by
  constructor
  · intro hk
    rw [dropPiece_win g col r hfind hk]
  · intro hk hd
    rw [dropPiece_draw g col r hfind hk hd]

/-- A full board with no 4-in-a-row for either player: rows 0-2 follow
the column pattern `[1,2,1,1,2,1,2]`, rows 3-5 its complement. -/
def noWinRows : List (List Cell) :=
  [[Cell.p1, Cell.p2, Cell.p1, Cell.p1, Cell.p2, Cell.p1, Cell.p2],
   [Cell.p1, Cell.p2, Cell.p1, Cell.p1, Cell.p2, Cell.p1, Cell.p2],
   [Cell.p1, Cell.p2, Cell.p1, Cell.p1, Cell.p2, Cell.p1, Cell.p2],
   [Cell.p2, Cell.p1, Cell.p2, Cell.p2, Cell.p1, Cell.p2, Cell.p1],
   [Cell.p2, Cell.p1, Cell.p2, Cell.p2, Cell.p1, Cell.p2, Cell.p1],
   [Cell.p2, Cell.p1, Cell.p2, Cell.p2, Cell.p1, Cell.p2, Cell.p1]]

/-- The no-win full board with its top-right cell still open; dropping
`PLAYER1` there fills the board without creating a line. -/
def c5DrawBoard : Board := mkBoard
  [[Cell.p1, Cell.p2, Cell.p1, Cell.p1, Cell.p2, Cell.p1, Cell.p2],
   [Cell.p1, Cell.p2, Cell.p1, Cell.p1, Cell.p2, Cell.p1, Cell.p2],
   [Cell.p1, Cell.p2, Cell.p1, Cell.p1, Cell.p2, Cell.p1, Cell.p2],
   [Cell.p2, Cell.p1, Cell.p2, Cell.p2, Cell.p1, Cell.p2, Cell.p1],
   [Cell.p2, Cell.p1, Cell.p2, Cell.p2, Cell.p1, Cell.p2, Cell.p1],
   [Cell.p2, Cell.p1, Cell.p2, Cell.p2, Cell.p1, Cell.p2]]

def c5DrawSt : GameSt := { demoStart with board := c5DrawBoard }

/-- Like `c5DrawBoard` but with row 5 arranged so that the final drop in
column 6 completes a horizontal line while filling the board. -/
def c5WinBoard : Board := mkBoard
  [[Cell.p1, Cell.p2, Cell.p1, Cell.p1, Cell.p2, Cell.p1, Cell.p2],
   [Cell.p1, Cell.p2, Cell.p1, Cell.p1, Cell.p2, Cell.p1, Cell.p2],
   [Cell.p1, Cell.p2, Cell.p1, Cell.p1, Cell.p2, Cell.p1, Cell.p2],
   [Cell.p2, Cell.p1, Cell.p2, Cell.p2, Cell.p1, Cell.p2, Cell.p1],
   [Cell.p2, Cell.p1, Cell.p2, Cell.p2, Cell.p1, Cell.p2, Cell.p1],
   [Cell.p2, Cell.p1, Cell.p2, Cell.p1, Cell.p1, Cell.p1]]

def c5WinSt : GameSt := { demoStart with board := c5WinBoard }

/-- Witness for C5: the board-filling winning drop yields Win, the
board-filling non-winning drop yields Draw. -/
theorem win_precedes_draw_witness :
    (dropPiece c5WinSt 6).2.gameState = GState.win ∧
    (dropPiece c5DrawSt 6).2.gameState = GState.draw :=
  ⟨(win_precedes_draw c5WinSt 6 5 (by decide)).1 (by decide),
   (win_precedes_draw c5DrawSt 6 5 (by decide)).2 (by decide) (by decide)⟩

/-! ### C6: who starts the next round -/

/-- The two real players. -/
def isPlayer (p : Cell) : Prop := p = Cell.p1 ∨ p = Cell.p2

theorem isPlayer_ne_empty {p : Cell} (h : isPlayer p) : p ≠ Cell.empty := by
  rcases h with h | h <;> rw [h] <;> simp

theorem otherPlayer_isPlayer (p : Cell) : isPlayer (otherPlayer p) := by
  unfold otherPlayer isPlayer
  split
  · exact Or.inr rfl
  · exact Or.inl rfl

theorem eq_otherPlayer {p q : Cell} (hp : isPlayer p) (hq : isPlayer q)
    (hne : q ≠ p) : q = otherPlayer p := by
  rcases hp with h | h <;> rcases hq with h' | h' <;> subst h <;> subst h' <;>
    simp [otherPlayer] at hne ⊢

theorem otherPlayer_eq_iff {p m : Cell} (hp : isPlayer p) (hm : isPlayer m) :
    otherPlayer m = p ↔ ¬(m = p) := by
  rcases hp with h | h <;> rcases hm with h' | h' <;> subst h <;> subst h' <;>
    simp [otherPlayer]

theorem cnt_empty : cnt emptyBoard = 0 := by
  simp [cnt, emptyBoard]

/-- The invariant maintained over one round played from a reset state
with starting player `p`. -/
def RoundInv (p : Cell) (g : GameSt) : Prop :=
  (g.gameState = GState.playing ∧ g.winner = Cell.empty ∧
    isPlayer g.currentPlayer ∧ grav g.board ∧
    (g.currentPlayer = p ↔ Even (cnt g.board)))
  ∨ (g.gameState = GState.draw ∧ g.winner = Cell.empty ∧
      g.currentPlayer = otherPlayer p)
  ∨ g.gameState = GState.win

theorem playMove_roundInv (p : Cell) (hp : isPlayer p) (g : GameSt)
    (hinv : RoundInv p g) (col : Fin 7) : RoundInv p (playMove g col) := by
  rcases hinv with ⟨hst, hw, hcp, hg, hiff⟩ | ⟨hst, hw, hcp⟩ | hst
  · unfold playMove
    rw [if_pos hst]
    cases hfind : findEmptyRow g.board col with
    | none =>
      have hnoop : dropPiece g col = (false, g) := by
        simp [dropPiece, hfind]
      rw [hnoop]
      exact Or.inl ⟨hst, hw, hcp, hg, hiff⟩
    | some r =>
      obtain ⟨hemp, hbelow⟩ := findEmptyRow_some g.board col r hfind
      have hgrav2 : grav (setCell g.board r col g.currentPlayer) :=
        grav_setCell _ _ _ _ (isPlayer_ne_empty hcp) hg hemp hbelow
      have hcnt2 : cnt (setCell g.board r col g.currentPlayer)
          = cnt g.board + 1 :=
        cnt_setCell _ _ _ _ hemp (isPlayer_ne_empty hcp)
      by_cases hk : 0 < (checkWinScan (setCell g.board r col g.currentPlayer)
          g.currentPlayer).count
      · rw [dropPiece_win g col r hfind hk]
        exact Or.inr (Or.inr rfl)
      · have hk0 : (checkWinScan (setCell g.board r col g.currentPlayer)
            g.currentPlayer).count = 0 := by omega
        by_cases hd : checkDraw (setCell g.board r col g.currentPlayer) = true
        · rw [dropPiece_draw g col r hfind hk0 hd]
          refine Or.inr (Or.inl ⟨rfl, hw, ?_⟩)
          have hfull := full_of_checkDraw _ hgrav2 hd
          have h42 : cnt (setCell g.board r col g.currentPlayer) = 42 :=
            cnt_full _ hfull
          have h41 : cnt g.board = 41 := by omega
          have hne : g.currentPlayer ≠ p := by
            intro he
            have heven := hiff.mp he
            rw [h41] at heven
            exact (by decide : ¬ Even 41) heven
          exact eq_otherPlayer hp hcp hne
        · have hd' : checkDraw (setCell g.board r col g.currentPlayer)
              = false := by
            simpa using hd
          rw [dropPiece_continue g col r hfind hk0 hd']
          refine Or.inl ⟨hst, hw, otherPlayer_isPlayer _, hgrav2, ?_⟩
          rw [hcnt2, Nat.even_add_one, otherPlayer_eq_iff hp hcp]
          exact not_congr hiff
  · unfold playMove
    rw [if_neg (by rw [hst]; simp)]
    exact Or.inr (Or.inl ⟨hst, hw, hcp⟩)
  · unfold playMove
    rw [if_neg (by rw [hst]; simp)]
    exact Or.inr (Or.inr hst)

theorem foldl_roundInv (p : Cell) (hp : isPlayer p) (moves : List (Fin 7)) :
    ∀ g : GameSt, RoundInv p g → RoundInv p (moves.foldl playMove g) := by
  induction moves with
  | nil => exact fun g h => h
  | cons m ms ih =>
    exact fun g h => ih (playMove g m) (playMove_roundInv p hp g h m)

/-- C6 (amended): a round ending with a winner leaves the loser as the
current player after `resetGame`; a round that ends in a draw leaves the
*last mover* — who, in a 42-move round from the empty board, is always
the player who did **not** start the round — as the next round's
starting player. -/
theorem round_start_after_reset :
    (∀ (g : GameSt) (col : Fin 7), isPlayer g.currentPlayer →
      g.gameState = GState.playing →
      (dropPiece g col).2.gameState = GState.win →
      (resetGame (dropPiece g col).2).currentPlayer
        = otherPlayer g.currentPlayer) ∧
    (∀ (g : GameSt) (moves : List (Fin 7)), isPlayer g.currentPlayer →
      g.gameState = GState.playing → g.winner = Cell.empty →
      g.board = emptyBoard →
      (moves.foldl playMove g).gameState = GState.draw →
      (resetGame (moves.foldl playMove g)).currentPlayer
        = otherPlayer g.currentPlayer) := by
  constructor
  · intro g col hcp hst hwin
    cases hfind : findEmptyRow g.board col with
    | none =>
      have hnoop : dropPiece g col = (false, g) := by
        simp [dropPiece, hfind]
      rw [hnoop] at hwin
      rw [hst] at hwin
      exact absurd hwin (by simp)
    | some r =>
      by_cases hk : 0 < (checkWinScan (setCell g.board r col g.currentPlayer)
          g.currentPlayer).count
      · rw [dropPiece_win g col r hfind hk]
        simp only [resetGame]
        rw [if_pos (isPlayer_ne_empty hcp)]
        rfl
      · have hk0 : (checkWinScan (setCell g.board r col g.currentPlayer)
            g.currentPlayer).count = 0 := by omega
        by_cases hd : checkDraw (setCell g.board r col g.currentPlayer) = true
        · rw [dropPiece_draw g col r hfind hk0 hd] at hwin
          exact absurd hwin (by simp)
        · rw [dropPiece_continue g col r hfind hk0 (by simpa using hd)]
            at hwin
          rw [show ({ g with
              board := setCell g.board r col g.currentPlayer
              winningCells := (checkWinScan
                (setCell g.board r col g.currentPlayer) g.currentPlayer).mask
              currentPlayer := otherPlayer g.currentPlayer } :
              GameSt).gameState = g.gameState from rfl, hst] at hwin
          exact absurd hwin (by simp)
  · intro g moves hcp hst hw hb hdraw
    have hinv0 : RoundInv g.currentPlayer g := by
      refine Or.inl ⟨hst, hw, hcp, ?_, ?_⟩
      · rw [hb]; decide
      · rw [hb, cnt_empty]
        simp
    have hinv := foldl_roundInv g.currentPlayer hcp moves g hinv0
    rcases hinv with ⟨hst', _, _, _, _⟩ | ⟨_, hw', hcp'⟩ | hst'
    · rw [hst'] at hdraw; exact absurd hdraw (by simp)
    · simp only [resetGame]
      rw [if_neg (by rw [hw']; simp)]
      exact hcp'
    · rw [hst'] at hdraw; exact absurd hdraw (by simp)

/-- A state where `PLAYER1` wins immediately by dropping in column 0. -/
def c6WinSt : GameSt :=
  { demoStart with board := mkBoard [[Cell.p1], [Cell.p1], [Cell.p1]] }

/-- A 42-move column sequence that fills the board with no 4-in-a-row,
`PLAYER1` moving first. -/
def drawMoves : List (Fin 7) :=
  [0, 1, 0, 1, 0, 1, 2, 4, 2, 4, 2, 4, 3, 6, 3, 6, 3, 6,
   5, 0, 5, 0, 5, 0, 1, 2, 1, 2, 1, 2, 4, 3, 4, 3, 4, 3,
   6, 5, 6, 5, 6, 5]

/-- Witness for C6 (amended): a concrete winning round hands the next
start to the loser; the concrete drawn round hands it to the player who
did not start (`PLAYER2` after a `PLAYER1`-started draw). -/
theorem round_start_after_reset_witness :
    (resetGame (dropPiece c6WinSt 0).2).currentPlayer = otherPlayer Cell.p1 ∧
    (resetGame (drawMoves.foldl playMove demoStart)).currentPlayer
      = otherPlayer Cell.p1 := by
  constructor
  · exact round_start_after_reset.1 c6WinSt 0 (Or.inl rfl) rfl (by decide)
  · exact round_start_after_reset.2 demoStart drawMoves (Or.inl rfl) rfl rfl
      rfl (by decide)

/-- Counterexample to C6 as stated: from a `PLAYER1`-started round, the
42-move draw leaves `PLAYER2` — not the starting player — as the next
round's starting player after the reset. -/
theorem draw_keeps_starter_counterexample :
    demoStart.currentPlayer = Cell.p1 ∧
    (drawMoves.foldl playMove demoStart).gameState = GState.draw ∧
    (resetGame (drawMoves.foldl playMove demoStart)).currentPlayer
      = Cell.p2 := by
  exact ⟨rfl, by decide, by decide⟩

/-! ### C9: `evaluatePosition` restores the board -/

theorem probeStep_board (p : Cell) (acc : Nat × Board) (c : Fin 7) :
    (probeStep p acc c).2 = acc.2 := by
  unfold probeStep
  cases hfind : findEmptyRow acc.2 c with
  | none => rfl
  | some r =>
    obtain ⟨hemp, -⟩ := findEmptyRow_some acc.2 c r hfind
    simp only []
    rw [setCell_setCell, setCell_cancel _ _ _ _ hemp]

theorem probeThreats_board (b : Board) (p : Cell) :
    (probeThreats b p).2 = b := by
  unfold probeThreats
  suffices h : ∀ (l : List (Fin 7)) (acc : Nat × Board),
      ((l.foldl (probeStep p) acc).2 = acc.2) from h _ (0, b)
  intro l
  induction l with
  | nil => intro acc; rfl
  | cons c cs ih =>
    intro acc
    rw [List.foldl_cons, ih (probeStep p acc c), probeStep_board]

theorem tier3_board (lvl : Nat) (b1 : Board) (row : Fin 6) (col : Fin 7)
    (pl opp : Cell) (h : b1 row col = pl) :
    (tier3 lvl b1 row col pl opp).2 = b1 := by
  unfold tier3
  split
  · rw [setCell_setCell, setCell_cancel _ _ _ _ h]
  · rfl

theorem tier6_board (lvl : Nat) (b3 : Board) (row : Fin 6) (col : Fin 7)
    (pl opp : Cell) (h : b3 row col = pl) :
    (tier6 lvl b3 row col pl opp).2 = b3 := by
  unfold tier6
  split
  · rw [setCell_setCell, setCell_cancel _ _ _ _ h]
  · rfl

theorem tier7_board (lvl : Nat) (b5 : Board) (row : Fin 6) (col : Fin 7)
    (pl opp : Cell)
    (hup : ∀ h5 : (row : Nat) < 5,
      b5 ⟨(row : Nat) + 1, by omega⟩ col = Cell.empty) :
    (tier7 lvl b5 row col pl opp).2
      = if lvl ≥ 7 ∧ (row : Nat) < 5 then setCell b5 row col opp else b5 := by
  unfold tier7
  by_cases h7 : lvl ≥ 7 ∧ (row : Nat) < 5
  · rw [dif_pos h7, if_pos h7]
    simp only [probeThreats_board]
    rw [setCell_setCell, setCell_cancel _ _ _ _ (hup h7.2), if_pos h7.2]
    simp only [probeThreats_board]
    rw [setCell_setCell,
      setCell_cancel _ _ _ _ (by
        rw [setCell_ne _ _ _ _ _ _ (fun hx => by
          have := congrArg Fin.val hx.1
          simp only [Fin.val_mk] at this
          omega)]
        exact hup h7.2)]
  · rw [dif_neg h7, if_neg h7]

/-- C9: For every board with no floating pieces, every column, every
player and every AI level, `evaluatePosition` leaves the board exactly as
it found it: every speculative placement (the probe piece, the opponent
substitutions, the level-7 stacked pieces and per-column fork probes) is
reverted before the function returns. -/
theorem evaluatePosition_restores_board (lvl : Nat) (b : Board)
    (col : Fin 7) (p : Cell) (hg : grav b) :
    (evaluatePositionSt lvl b col p).2 = b := by
  cases hfind : findEmptyRow b col with
  | none => simp [evaluatePositionSt, hfind]
  | some row =>
    obtain ⟨hemp, -⟩ := findEmptyRow_some b col row hfind
    have hup : ∀ h5 : (row : Nat) < 5,
        b ⟨(row : Nat) + 1, by omega⟩ col = Cell.empty := fun h5 =>
      grav_up b hg col (row : Nat) row.isLt hemp ((row : Nat) + 1)
        (by omega) (by omega)
    have hup1 : ∀ h5 : (row : Nat) < 5,
        setCell b row col p ⟨(row : Nat) + 1, by omega⟩ col = Cell.empty := by
      intro h5
      rw [setCell_ne _ _ _ _ _ _ (fun hx => by
        have := congrArg Fin.val hx.1
        simp only [Fin.val_mk] at this
        omega)]
      exact hup h5
    simp only [evaluatePositionSt, hfind]
    by_cases hwin : (decide (lvl ≥ 1) && aiCheckWin (setCell b row col p)
        row col p) = true
    · rw [if_pos hwin]
      simp only []
      rw [setCell_setCell, setCell_cancel _ _ _ _ hemp]
    · rw [if_neg hwin]
      simp only []
      rw [tier3_board _ _ _ _ _ _ (setCell_self _ _ _ _),
        tier6_board _ _ _ _ _ _ (setCell_self _ _ _ _),
        tier7_board _ _ _ _ _ _ hup1]
      by_cases h7 : lvl ≥ 7 ∧ (row : Nat) < 5
      · rw [if_pos h7, setCell_setCell, setCell_setCell,
          setCell_cancel _ _ _ _ hemp]
      · rw [if_neg h7, setCell_setCell, setCell_cancel _ _ _ _ hemp]

/-- Witness for C9 at a concrete board, column and level. -/
theorem evaluatePosition_restores_board_witness :
    (evaluatePositionSt 7 c4Board 3 Cell.p2).2 = c4Board :=
  evaluatePosition_restores_board 7 c4Board 3 Cell.p2 (by decide)

/-! ### The spec-side notion of a completed 4-in-a-row through a cell,
and its equivalence with the engine's `aiCheckWin` at a landing cell -/

/-- The board contains a 4-in-a-row of `p` passing through cell
`(r, c)`. -/
def lineThrough (b : Board) (r : Fin 6) (c : Fin 7) (p : Cell) : Prop :=
  ∃ l ∈ scanLines, isPlayerLine b p l = true ∧
    ((r : Int), (c : Int)) ∈ lineCells l.1.1 l.1.2 l.2.1 l.2.2

theorem mem_scanLines (l : LineId) :
    l ∈ scanLines ↔ l.1.1 < 6 ∧ l.1.2 < 7 ∧ l.2 ∈ directions := by
  obtain ⟨⟨r0, c0⟩, d⟩ := l
  simp only [scanLines, scanPositions, List.mem_flatMap, List.mem_map,
    List.mem_range]
  constructor
  · rintro ⟨rc, ⟨r, hr, c, hc, hrc⟩, d', hd', he⟩
    cases he
    cases hrc
    exact ⟨hr, hc, hd'⟩
  · rintro ⟨hr, hc, hd⟩
    exact ⟨(r0, c0), ⟨r0, hr, c0, hc, rfl⟩, d, hd, rfl⟩

/-- Above a landing cell, the column is empty (gravity). -/
theorem landing_above_empty (b : Board) (c : Fin 7) (r : Fin 6)
    (hg : grav b) (hfind : findEmptyRow b c = some r) :
    ∀ r' : Fin 6, (r : Nat) < (r' : Nat) → b r' c = Cell.empty := by
  obtain ⟨hemp, -⟩ := findEmptyRow_some b c r hfind
  intro r' hlt
  exact grav_up b hg c (r : Nat) r.isLt hemp (r' : Nat) r'.isLt (le_of_lt hlt)

theorem inBounds_iff (a b : Int) :
    inBounds a b = true ↔ 0 ≤ a ∧ a < 6 ∧ 0 ≤ b ∧ b < 7 := by
  simp only [inBounds, Bool.and_eq_true, decide_eq_true_eq]
  tauto

theorem isPlayerLine_iff (b : Board) (p : Cell) (r0 c0 : Nat) (dr dc : Int) :
    isPlayerLine b p ((r0, c0), (dr, dc)) = true ↔
      ∀ i : Nat, i < 4 →
        inBounds ((r0 : Int) + i * dr) ((c0 : Int) + i * dc) = true ∧
        getCell b ((r0 : Int) + i * dr) ((c0 : Int) + i * dc) = p := by
  unfold isPlayerLine
  rw [List.all_eq_true]
  constructor
  · intro h i hi
    have hm : (((r0 : Int) + i * dr, (c0 : Int) + i * dc) : Int × Int)
        ∈ lineCells r0 c0 dr dc :=
      List.mem_map.mpr ⟨i, List.mem_range.mpr hi, rfl⟩
    have hx := h _ hm
    rw [Bool.and_eq_true, beq_iff_eq] at hx
    exact hx
  · intro h x hm
    obtain ⟨i, hi, he⟩ := List.mem_map.mp hm
    rw [List.mem_range] at hi
    obtain ⟨h1, h2⟩ := h i hi
    rw [Bool.and_eq_true, beq_iff_eq]
    rw [← he]
    exact ⟨h1, h2⟩

theorem lineThrough_intro (b : Board) (r : Fin 6) (c : Fin 7) (p : Cell)
    (r0 c0 : Nat) (dr dc : Int) (hr0 : r0 < 6) (hc0 : c0 < 7)
    (hd : (dr, dc) ∈ directions)
    (hcells : ∀ i : Nat, i < 4 →
      inBounds ((r0 : Int) + i * dr) ((c0 : Int) + i * dc) = true ∧
      getCell b ((r0 : Int) + i * dr) ((c0 : Int) + i * dc) = p)
    (j : Nat) (hj : j < 4) (hrj : (r : Int) = (r0 : Int) + j * dr)
    (hcj : (c : Int) = (c0 : Int) + j * dc) :
    lineThrough b r c p := by
  refine ⟨((r0, c0), (dr, dc)), ?_, ?_, ?_⟩
  · rw [mem_scanLines]
    exact ⟨hr0, hc0, hd⟩
  · rw [isPlayerLine_iff]
    exact hcells
  · exact List.mem_map.mpr ⟨j, List.mem_range.mpr hj, by rw [hrj, hcj]⟩

/-- The coordinates `getCell` reads at in-range `Fin` indices. -/
theorem getCell_coe (b : Board) (r : Fin 6) (c : Fin 7) :
    getCell b (r : Int) (c : Int) = b r c := by
  unfold getCell
  rw [dif_pos ⟨by omega, by exact_mod_cast r.isLt, by omega,
    by exact_mod_cast c.isLt⟩]
  simp

/-- Every direction of `aiCheckWin` exhibits a geometric 4-in-a-row
through `(r, c)`. -/
theorem lineThrough_of_aiCheckWin (b : Board) (r : Fin 6) (c : Fin 7)
    (p : Cell) (h : aiCheckWin b r c p = true) : lineThrough b r c p := by
  simp only [aiCheckWin, Bool.or_eq_true, List.any_eq_true, List.mem_range,
    Bool.and_eq_true, decide_eq_true_eq, List.all_eq_true, beq_iff_eq] at h
  have hr6 : (r : Nat) < 6 := r.isLt
  have hc7 : (c : Nat) < 7 := c.isLt
  rcases h with ((⟨k, hk, ⟨hs0, hs3⟩, hcells⟩ | ⟨hr3, hcells⟩) |
    ⟨k, hk, ⟨⟨⟨hr0, hr2⟩, hc0⟩, hc3⟩, hcells⟩) |
    ⟨k, hk, ⟨⟨⟨hr0, hr2⟩, hsc3⟩, hsc7⟩, hcells⟩
  · -- horizontal window starting at column (c - 3 + k)
    have hcast : ((((c : Int) - 3 + k).toNat : Int)) = (c : Int) - 3 + k :=
      Int.toNat_of_nonneg hs0
    refine lineThrough_intro b r c p (r : Nat) ((c : Int) - 3 + k).toNat
      0 1 r.isLt (by omega) (by simp [directions]) ?_ (3 - k) (by omega)
      (by ring) (by omega)
    intro i hi
    have hcell := hcells i hi
    constructor
    · rw [inBounds_iff]
      omega
    · rw [show ((r : Nat) : Int) + i * 0 = (r : Int) from by ring,
        show ((((c : Int) - 3 + k).toNat : Nat) : Int) + i * 1
          = (c : Int) - 3 + k + i from by rw [hcast]; ring]
      exact hcell
  · -- vertical window ending at (r, c)
    refine lineThrough_intro b r c p ((r : Nat) - 3) (c : Nat) 1 0
      (by omega) c.isLt (by simp [directions]) ?_ 3 (by omega)
      (by push_cast; omega) (by push_cast; ring)
    intro i hi
    have hcell := hcells (3 - i) (by omega)
    constructor
    · rw [inBounds_iff]
      omega
    · rw [show ((((r : Nat) - 3 : Nat)) : Int) + i * 1
          = (r : Int) - ((3 - i : Nat) : Int) from by omega,
        show (((c : Nat)) : Int) + i * 0 = (c : Int) from by ring]
      exact hcell
  · -- diagonal up-right
    have hsr : ((((r : Int) + k - 3).toNat : Int)) = (r : Int) + k - 3 :=
      Int.toNat_of_nonneg hr0
    have hsc : ((((c : Int) + k - 3).toNat : Int)) = (c : Int) + k - 3 :=
      Int.toNat_of_nonneg hc0
    refine lineThrough_intro b r c p ((r : Int) + k - 3).toNat
      ((c : Int) + k - 3).toNat 1 1 (by omega) (by omega)
      (by simp [directions]) ?_ (3 - k) (by omega)
      (by omega) (by omega)
    intro i hi
    have hcell := hcells i hi
    constructor
    · rw [inBounds_iff]
      omega
    · rw [show ((((r : Int) + k - 3).toNat : Nat) : Int) + i * 1
          = (r : Int) + k - 3 + i from by rw [hsr]; ring,
        show ((((c : Int) + k - 3).toNat : Nat) : Int) + i * 1
          = (c : Int) + k - 3 + i from by rw [hsc]; ring]
      exact hcell
  · -- diagonal up-left
    have hsr : ((((r : Int) + k - 3).toNat : Int)) = (r : Int) + k - 3 :=
      Int.toNat_of_nonneg hr0
    have hsc : ((((c : Int) - (k - 3)).toNat : Int)) = (c : Int) - (k - 3) :=
      Int.toNat_of_nonneg (by omega)
    refine lineThrough_intro b r c p ((r : Int) + k - 3).toNat
      ((c : Int) - (k - 3)).toNat 1 (-1) (by omega) (by omega)
      (by simp [directions]) ?_ (3 - k) (by omega)
      (by omega) (by omega)
    intro i hi
    have hcell := hcells i hi
    constructor
    · rw [inBounds_iff]
      omega
    · rw [show ((((r : Int) + k - 3).toNat : Nat) : Int) + i * 1
          = (r : Int) + k - 3 + i from by rw [hsr]; ring,
        show ((((c : Int) - (k - 3)).toNat : Nat) : Int) + i * (-1)
          = (c : Int) - (k - 3) - i from by rw [hsc]; ring]
      exact hcell

/-- A cell above `(r, c)` in column `c` reads as empty. -/
theorem getCell_above (b : Board) (r : Fin 6) (c : Fin 7)
    (habove : ∀ r' : Fin 6, (r : Nat) < (r' : Nat) → b r' c = Cell.empty)
    (ri ci : Int) (hgt : (r : Int) < ri) (h6 : ri < 6)
    (hceq : ci = (c : Int)) : getCell b ri ci = Cell.empty := by
  subst hceq
  unfold getCell
  rw [dif_pos ⟨by omega, h6, by omega, by exact_mod_cast c.isLt⟩]
  have hx := habove ⟨ri.toNat, by omega⟩ (by simp; omega)
  simpa using hx

/-- Conversely, on a board whose cells above `(r, c)` in column `c` are
empty — as they are below a landing cell on a gravity-respecting board —
any 4-in-a-row of `p` through `(r, c)` is found by `aiCheckWin`. -/
theorem aiCheckWin_of_lineThrough (b : Board) (r : Fin 6) (c : Fin 7)
    (p : Cell) (hp : p ≠ Cell.empty)
    (habove : ∀ r' : Fin 6, (r : Nat) < (r' : Nat) → b r' c = Cell.empty)
    (h : lineThrough b r c p) : aiCheckWin b r c p = true := by
  obtain ⟨⟨⟨r0, c0⟩, d⟩, hmem, hpl, hcell⟩ := h
  rw [mem_scanLines] at hmem
  obtain ⟨hr0, hc0, hd⟩ := hmem
  replace hr0 : r0 < 6 := hr0
  replace hc0 : c0 < 7 := hc0
  obtain ⟨j, hj4, hje⟩ := List.mem_map.mp hcell
  rw [List.mem_range] at hj4
  simp only [directions, List.mem_cons, List.not_mem_nil, or_false] at hd
  simp only [aiCheckWin, Bool.or_eq_true, List.any_eq_true, List.mem_range,
    Bool.and_eq_true, decide_eq_true_eq, List.all_eq_true, beq_iff_eq]
  rcases hd with rfl | rfl | rfl | rfl
  · -- horizontal
    have hpl' := (isPlayerLine_iff b p r0 c0 0 1).mp hpl
    have hb3 := (hpl' 3 (by omega)).1
    rw [inBounds_iff] at hb3
    rw [Prod.mk.injEq] at hje
    obtain ⟨hjr, hjc⟩ := hje
    push_cast at hjr hjc
    refine Or.inl (Or.inl (Or.inl ⟨3 - j, by omega, ⟨by omega, by omega⟩,
      fun x hx => ?_⟩))
    have hcellx := (hpl' x (by omega)).2
    rw [show ((r : Nat) : Int) = (r0 : Int) + (x : Int) * 0 from by omega,
      show ((c : Nat) : Int) - 3 + ((3 - j : Nat) : Int) + (x : Int)
          = (c0 : Int) + (x : Int) * 1 from by omega]
    exact hcellx
  · -- vertical: the line must end at the landing cell
    have hpl' := (isPlayerLine_iff b p r0 c0 1 0).mp hpl
    have hb3 := (hpl' 3 (by omega)).1
    rw [inBounds_iff] at hb3
    rw [Prod.mk.injEq] at hje
    obtain ⟨hjr, hjc⟩ := hje
    push_cast at hjr hjc
    have hj3 : j = 3 := by
      by_contra hne
      have hcell3 := (hpl' 3 (by omega)).2
      rw [getCell_above b r c habove _ _ (by omega)
        (by omega) (by omega)] at hcell3
      exact hp hcell3.symm
    subst hj3
    refine Or.inl (Or.inl (Or.inr ⟨by omega,
      fun x hx => ?_⟩))
    have hcellx := (hpl' (3 - x) (by omega)).2
    rw [show ((r : Nat) : Int) - (x : Int)
          = (r0 : Int) + ((3 - x : Nat) : Int) * 1 from by
        push_cast at hjr ⊢; omega,
      show ((c : Nat) : Int) = (c0 : Int) + ((3 - x : Nat) : Int) * 0 from by
        push_cast at hjc ⊢; omega]
    exact hcellx
  · -- diagonal up-right
    have hpl' := (isPlayerLine_iff b p r0 c0 1 1).mp hpl
    have hb3 := (hpl' 3 (by omega)).1
    rw [inBounds_iff] at hb3
    rw [Prod.mk.injEq] at hje
    obtain ⟨hjr, hjc⟩ := hje
    push_cast at hjr hjc
    refine Or.inl (Or.inr ⟨3 - j, by omega,
      ⟨⟨⟨by omega, by omega⟩,
        by omega⟩, by omega⟩,
      fun x hx => ?_⟩)
    have hcellx := (hpl' x (by omega)).2
    rw [show ((r : Nat) : Int) + ((3 - j : Nat) : Int) - 3 + (x : Int)
          = (r0 : Int) + (x : Int) * 1 from by omega,
      show ((c : Nat) : Int) + ((3 - j : Nat) : Int) - 3 + (x : Int)
          = (c0 : Int) + (x : Int) * 1 from by omega]
    exact hcellx
  · -- diagonal up-left
    have hpl' := (isPlayerLine_iff b p r0 c0 1 (-1)).mp hpl
    have hb3 := (hpl' 3 (by omega)).1
    rw [inBounds_iff] at hb3
    rw [Prod.mk.injEq] at hje
    obtain ⟨hjr, hjc⟩ := hje
    push_cast at hjr hjc
    refine Or.inr ⟨3 - j, by omega,
      ⟨⟨⟨by omega, by omega⟩,
        by omega⟩, by omega⟩,
      fun x hx => ?_⟩
    have hcellx := (hpl' x (by omega)).2
    rw [show ((r : Nat) : Int) + ((3 - j : Nat) : Int) - 3 + (x : Int)
          = (r0 : Int) + (x : Int) * 1 from by omega,
      show ((c : Nat) : Int) - (((3 - j : Nat) : Int) - 3) - (x : Int)
          = (c0 : Int) + (x : Int) * (-1) from by omega]
    exact hcellx

/-! ### The AI engine's column choice: score bounds and the argmax loop -/

/-- Dropping `p` in column `c` wins on the spot: the column has a landing
row and `aiCheckWin` fires on the placed piece. -/
def winningMove (b : Board) (c : Fin 7) (p : Cell) : Prop :=
  ∃ r : Fin 6, findEmptyRow b c = some r ∧
    aiCheckWin (setCell b r c p) r c p = true

instance winningMoveDec (b : Board) (c : Fin 7) (p : Cell) :
    Decidable (winningMove b c p) := by
  unfold winningMove; infer_instance

/-- The level-2 centrality bonus lies in `[0, 6]`. -/
theorem centrality_bounds (col : Fin 7) :
    0 ≤ (3 - |(col : Int) - 3|) * 2 ∧ (3 - |(col : Int) - 3|) * 2 ≤ 6 := by
  fin_cases col <;> decide

/-- The must-block bonus is 0 or 500. -/
theorem tier3_score_bounds (lvl : Nat) (b1 : Board) (row : Fin 6)
    (col : Fin 7) (p o : Cell) :
    0 ≤ (tier3 lvl b1 row col p o).1 ∧ (tier3 lvl b1 row col p o).1 ≤ 500 := by
  unfold tier3
  split_ifs <;> norm_num

/-- Each of the four axes contributes its bonus `v` at most once. -/
theorem runBonus_bounds (b3 : Board) (row : Fin 6) (col : Fin 7) (p : Cell)
    (t : Nat) (v : Int) (hv : 0 ≤ v) :
    0 ≤ runBonus b3 row col p t v ∧ runBonus b3 row col p t v ≤ 4 * v := by
  unfold runBonus
  split_ifs <;> constructor <;> omega

/-- The level-6 block scores at most 5 + 40 + 40. -/
theorem tier6_score_bounds (lvl : Nat) (b3 : Board) (row : Fin 6)
    (col : Fin 7) (p o : Cell) :
    0 ≤ (tier6 lvl b3 row col p o).1 ∧ (tier6 lvl b3 row col p o).1 ≤ 85 := by
  unfold tier6
  split_ifs <;> norm_num

/-- Below level 7 the fork tier contributes nothing. -/
theorem tier7_score_zero (lvl : Nat) (b5 : Board) (row : Fin 6) (col : Fin 7)
    (p o : Cell) (h : lvl ≤ 6) : (tier7 lvl b5 row col p o).1 = 0 := by
  unfold tier7
  rw [dif_neg (by rintro ⟨h7, -⟩; omega)]

/-- The fork tier never subtracts. -/
theorem tier7_score_nonneg (lvl : Nat) (b5 : Board) (row : Fin 6)
    (col : Fin 7) (p o : Cell) : 0 ≤ (tier7 lvl b5 row col p o).1 := by
  unfold tier7
  split
  · dsimp only
    split_ifs <;> norm_num
  · norm_num

/-- The sum of tier scores the non-winning branch of `evaluatePosition`
returns. -/
def tierSum (lvl : Nat) (b : Board) (row : Fin 6) (col : Fin 7)
    (player opponent : Cell) : Int :=
  (if lvl ≥ 2 then (3 - |(col : Int) - 3|) * 2 else 0) +
  (tier3 lvl (setCell b row col player) row col player opponent).1 +
  (if lvl ≥ 4 then runBonus (tier3 lvl (setCell b row col player) row col
      player opponent).2 row col player 2 20 else 0) +
  (if lvl ≥ 5 then runBonus (tier3 lvl (setCell b row col player) row col
      player opponent).2 row col player 3 50 else 0) +
  (tier6 lvl (tier3 lvl (setCell b row col player) row col player
      opponent).2 row col player opponent).1 +
  (tier7 lvl (tier6 lvl (tier3 lvl (setCell b row col player) row col player
        opponent).2 row col player opponent).2 row col player opponent).1

/-- When the placed piece does not win (or the level is 0), the score is
the sum of the tier scores. -/
theorem evaluatePosition_else_eq (lvl : Nat) (b : Board) (col : Fin 7)
    (p : Cell) (row : Fin 6) (hrow : findEmptyRow b col = some row)
    (hg : (decide (lvl ≥ 1) && aiCheckWin (setCell b row col p) row col p)
      = false) :
    evaluatePosition lvl b col p
      = tierSum lvl b row col p (if p = Cell.p1 then Cell.p2 else Cell.p1) := by
  unfold evaluatePosition tierSum
  simp only [evaluatePositionSt, hrow]
  rw [if_neg (by simp [hg])]

/-- A winning placement scores exactly 1000 at every level `>= 1`. -/
theorem evaluatePosition_win (lvl : Nat) (b : Board) (col : Fin 7) (p : Cell)
    (row : Fin 6) (hrow : findEmptyRow b col = some row) (h1 : 1 ≤ lvl)
    (hwin : aiCheckWin (setCell b row col p) row col p = true) :
    evaluatePosition lvl b col p = 1000 := by
  unfold evaluatePosition
  simp only [evaluatePositionSt, hrow]
  rw [if_pos (by simp [hwin]; omega)]

/-- The tier sum never subtracts. -/
theorem tierSum_nonneg (lvl : Nat) (b : Board) (row : Fin 6) (col : Fin 7)
    (p o : Cell) : 0 ≤ tierSum lvl b row col p o := by
  have hc := centrality_bounds col
  have h3 := tier3_score_bounds lvl (setCell b row col p) row col p o
  have h4 := runBonus_bounds (tier3 lvl (setCell b row col p) row col p o).2
    row col p 2 20 (by norm_num)
  have h5 := runBonus_bounds (tier3 lvl (setCell b row col p) row col p o).2
    row col p 3 50 (by norm_num)
  have h6 := tier6_score_bounds lvl
    (tier3 lvl (setCell b row col p) row col p o).2 row col p o
  have h7 := tier7_score_nonneg lvl
    (tier6 lvl (tier3 lvl (setCell b row col p) row col p o).2 row col p o).2
    row col p o
  unfold tierSum
  split_ifs <;> omega

/-- At levels `<= 6` a non-winning placement scores at most
`6 + 500 + 80 + 200 + 85 = 871 < 1000`. -/
theorem tierSum_le (lvl : Nat) (b : Board) (row : Fin 6) (col : Fin 7)
    (p o : Cell) (h6 : lvl ≤ 6) : tierSum lvl b row col p o ≤ 871 := by
  have hc := centrality_bounds col
  have h3 := tier3_score_bounds lvl (setCell b row col p) row col p o
  have h4 := runBonus_bounds (tier3 lvl (setCell b row col p) row col p o).2
    row col p 2 20 (by norm_num)
  have h5 := runBonus_bounds (tier3 lvl (setCell b row col p) row col p o).2
    row col p 3 50 (by norm_num)
  have ht6 := tier6_score_bounds lvl
    (tier3 lvl (setCell b row col p) row col p o).2 row col p o
  have h7 := tier7_score_zero lvl
    (tier6 lvl (tier3 lvl (setCell b row col p) row col p o).2 row col p o).2
    row col p o h6
  unfold tierSum
  split_ifs <;> omega

/-- A placement blocking an immediate opponent win scores at least 500
from level 3 on. -/
theorem tierSum_block_ge (lvl : Nat) (b : Board) (row : Fin 6) (col : Fin 7)
    (p o : Cell) (h3 : 3 ≤ lvl)
    (hblk : aiCheckWin (setCell b row col o) row col o = true) :
    500 ≤ tierSum lvl b row col p o := by
  have ht3 : (tier3 lvl (setCell b row col p) row col p o).1 = 500 := by
    unfold tier3
    rw [if_pos h3, setCell_setCell, if_pos hblk]
  have hc := centrality_bounds col
  have h4 := runBonus_bounds (tier3 lvl (setCell b row col p) row col p o).2
    row col p 2 20 (by norm_num)
  have h5 := runBonus_bounds (tier3 lvl (setCell b row col p) row col p o).2
    row col p 3 50 (by norm_num)
  have ht6 := tier6_score_bounds lvl
    (tier3 lvl (setCell b row col p) row col p o).2 row col p o
  have h7 := tier7_score_nonneg lvl
    (tier6 lvl (tier3 lvl (setCell b row col p) row col p o).2 row col p o).2
    row col p o
  unfold tierSum
  split_ifs <;> omega

/-- At levels `<= 6` a placement that neither wins nor blocks scores at
most `6 + 80 + 200 + 85 = 371 < 500`. -/
theorem tierSum_noblock_le (lvl : Nat) (b : Board) (row : Fin 6)
    (col : Fin 7) (p o : Cell) (h6 : lvl ≤ 6)
    (hblk : aiCheckWin (setCell b row col o) row col o = false) :
    tierSum lvl b row col p o ≤ 371 := by
  have ht3 : (tier3 lvl (setCell b row col p) row col p o).1 = 0 := by
    unfold tier3
    split_ifs with hl hw
    · rw [setCell_setCell, hblk] at hw
      cases hw
    · rfl
    · rfl
  have hc := centrality_bounds col
  have h4 := runBonus_bounds (tier3 lvl (setCell b row col p) row col p o).2
    row col p 2 20 (by norm_num)
  have h5 := runBonus_bounds (tier3 lvl (setCell b row col p) row col p o).2
    row col p 3 50 (by norm_num)
  have ht6 := tier6_score_bounds lvl
    (tier3 lvl (setCell b row col p) row col p o).2 row col p o
  have h7 := tier7_score_zero lvl
    (tier6 lvl (tier3 lvl (setCell b row col p) row col p o).2 row col p o).2
    row col p o h6
  unfold tierSum
  split_ifs <;> omega

/-- A playable column never evaluates below 0 (so always above the
`-2000` the choice loop starts from). -/
theorem evaluatePosition_nonneg (lvl : Nat) (b : Board) (col : Fin 7)
    (p : Cell) (row : Fin 6) (hrow : findEmptyRow b col = some row) :
    0 ≤ evaluatePosition lvl b col p := by
  by_cases hg : (decide (lvl ≥ 1) &&
      aiCheckWin (setCell b row col p) row col p) = true
  · unfold evaluatePosition
    simp only [evaluatePositionSt, hrow]
    rw [if_pos hg]
    norm_num
  · rw [Bool.not_eq_true] at hg
    rw [evaluatePosition_else_eq lvl b col p row hrow hg]
    exact tierSum_nonneg lvl b row col p _

/-- The loop invariant of `aiChooseColumn`'s fold after processing the
columns in `l`: every recorded tie is a playable column scoring exactly
`bestScore`, every processed playable column scores at most `bestScore`,
`bestCol` is among the ties whenever any exist, and an empty tie list
means the score never moved off its `-2000` start. -/
def ChooseInv (lvl : Nat) (b : Board) (l : List (Fin 7)) (s : ChooseSt) :
    Prop :=
  (∀ c ∈ s.bestCols, (findEmptyRow b c).isSome = true ∧
      evaluatePosition lvl b c Cell.p2 = s.bestScore) ∧
  (∀ c ∈ l, (findEmptyRow b c).isSome = true →
      evaluatePosition lvl b c Cell.p2 ≤ s.bestScore) ∧
  (s.bestCols ≠ [] → s.bestCol ∈ s.bestCols) ∧
  (s.bestCols = [] → s.bestScore = -2000)

theorem chooseStep_inv (lvl : Nat) (b : Board) (l : List (Fin 7))
    (s : ChooseSt) (c : Fin 7)
    (hge : ∀ c' : Fin 7, (findEmptyRow b c').isSome = true →
      0 ≤ evaluatePosition lvl b c' Cell.p2)
    (h : ChooseInv lvl b l s) :
    ChooseInv lvl b (l ++ [c]) (chooseStep lvl b s c) := by
  obtain ⟨h1, h2, h3, h4⟩ := h
  unfold ChooseInv chooseStep
  dsimp only
  split_ifs with hp hlt heq
  · refine ⟨?_, ?_, ?_, ?_⟩
    · intro x hx
      simp only [List.mem_singleton] at hx
      subst hx
      exact ⟨hp, rfl⟩
    · intro x hx hxp
      rcases List.mem_append.mp hx with hx | hx
      · exact le_of_lt (lt_of_le_of_lt (h2 x hx hxp) hlt)
      · simp only [List.mem_singleton] at hx
        subst hx
        exact le_refl _
    · intro _
      simp
    · intro hx
      cases hx
  · refine ⟨?_, ?_, ?_, ?_⟩
    · intro x hx
      rcases List.mem_append.mp hx with hx | hx
      · exact h1 x hx
      · simp only [List.mem_singleton] at hx
        subst hx
        exact ⟨hp, heq⟩
    · intro x hx hxp
      rcases List.mem_append.mp hx with hx | hx
      · exact h2 x hx hxp
      · simp only [List.mem_singleton] at hx
        subst hx
        exact le_of_eq heq
    · intro _
      rcases hne : s.bestCols with _ | ⟨y, ys⟩
      · exfalso
        have h0 := hge c hp
        rw [heq, h4 hne] at h0
        omega
      · have hmem := h3 (by rw [hne]; simp)
        rw [hne] at hmem
        exact List.mem_append.mpr (Or.inl hmem)
    · intro hx
      rcases List.append_eq_nil.mp hx with ⟨-, hx2⟩
      cases hx2
  · refine ⟨h1, ?_, h3, h4⟩
    intro x hx hxp
    rcases List.mem_append.mp hx with hx | hx
    · exact h2 x hx hxp
    · simp only [List.mem_singleton] at hx
      subst hx
      omega
  · refine ⟨h1, ?_, h3, h4⟩
    intro x hx hxp
    rcases List.mem_append.mp hx with hx | hx
    · exact h2 x hx hxp
    · simp only [List.mem_singleton] at hx
      subst hx
      exact absurd hxp hp

theorem foldl_chooseInv (lvl : Nat) (b : Board)
    (hge : ∀ c' : Fin 7, (findEmptyRow b c').isSome = true →
      0 ≤ evaluatePosition lvl b c' Cell.p2)
    (l : List (Fin 7)) :
    ∀ (pre : List (Fin 7)) (s : ChooseSt), ChooseInv lvl b pre s →
      ChooseInv lvl b (pre ++ l) (l.foldl (chooseStep lvl b) s) := by
  induction l with
  | nil =>
    intro pre s h
    simpa using h
  | cons c cs ih =>
    intro pre s h
    rw [List.foldl_cons]
    have hstep := ih (pre ++ [c]) (chooseStep lvl b s c)
      (chooseStep_inv lvl b pre s c hge h)
    simpa [List.append_assoc] using hstep

/-- `aiChooseColumn` picks a playable column of maximal score whenever
any column is playable. -/
theorem aiChooseColumn_spec (lvl : Nat) (b : Board) (rand : Nat → Nat)
    (hex : ∃ c : Fin 7, (findEmptyRow b c).isSome = true) :
    (findEmptyRow b (aiChooseColumn lvl b rand)).isSome = true ∧
    ∀ c : Fin 7, (findEmptyRow b c).isSome = true →
      evaluatePosition lvl b c Cell.p2 ≤
        evaluatePosition lvl b (aiChooseColumn lvl b rand) Cell.p2 := by
  have hge : ∀ c' : Fin 7, (findEmptyRow b c').isSome = true →
      0 ≤ evaluatePosition lvl b c' Cell.p2 := by
    intro c' hc'
    rw [Option.isSome_iff_exists] at hc'
    obtain ⟨r, hr⟩ := hc'
    exact evaluatePosition_nonneg lvl b c' Cell.p2 r hr
  have hinv := foldl_chooseInv lvl b hge (List.finRange 7) [] chooseInit
    (by unfold ChooseInv; refine ⟨?_, ?_, ?_, ?_⟩ <;> simp [chooseInit])
  rw [List.nil_append] at hinv
  obtain ⟨h1, h2, h3, h4⟩ := hinv
  obtain ⟨c0, hc0⟩ := hex
  have hne : ((List.finRange 7).foldl (chooseStep lvl b)
      chooseInit).bestCols ≠ [] := by
    intro hnil
    have hle := h2 c0 (List.mem_finRange c0) hc0
    rw [h4 hnil] at hle
    have h0 := hge c0 hc0
    omega
  have hchosen : aiChooseColumn lvl b rand ∈
      ((List.finRange 7).foldl (chooseStep lvl b) chooseInit).bestCols := by
    unfold aiChooseColumn
    dsimp only
    split_ifs with h
    · exact List.get_mem _ _ _
    · exact h3 hne
  obtain ⟨hps, hsc⟩ := h1 _ hchosen
  refine ⟨hps, fun c hc => ?_⟩
  rw [hsc]
  exact h2 c (List.mem_finRange c) hc

/-- C7 (amended to levels 1 through 6): whenever some column completes a
4-in-a-row for the AI, the chosen column does too — the simulated winning
placement scores 1000, strictly above the at most 871 a non-winning
column can reach below level 7 — and if column 2 is the only winning
column, column 2 is selected.  (At level 7 the fork bonuses can push a
non-winning column past 1000; see the counterexample.) -/
theorem ai_takes_winning_column (lvl : Nat) (b : Board) (rand : Nat → Nat)
    (h1 : 1 ≤ lvl) (h6 : lvl ≤ 6) :
    (∀ cw : Fin 7, winningMove b cw Cell.p2 →
        winningMove b (aiChooseColumn lvl b rand) Cell.p2) ∧
    ((winningMove b (2 : Fin 7) Cell.p2 ∧
        ∀ c : Fin 7, winningMove b c Cell.p2 → c = (2 : Fin 7)) →
      aiChooseColumn lvl b rand = (2 : Fin 7)) := by
  have main : ∀ cw : Fin 7, winningMove b cw Cell.p2 →
      winningMove b (aiChooseColumn lvl b rand) Cell.p2 := by
    intro cw hw
    obtain ⟨r, hr, hwin⟩ := hw
    have hex : ∃ c : Fin 7, (findEmptyRow b c).isSome = true :=
      ⟨cw, by rw [hr]; rfl⟩
    obtain ⟨hps, hmax⟩ := aiChooseColumn_spec lvl b rand hex
    have hcw : evaluatePosition lvl b cw Cell.p2 = 1000 :=
      evaluatePosition_win lvl b cw Cell.p2 r hr h1 hwin
    have hle := hmax cw (by rw [hr]; rfl)
    rw [hcw] at hle
    rw [Option.isSome_iff_exists] at hps
    obtain ⟨r', hr'⟩ := hps
    refine ⟨r', hr', ?_⟩
    by_contra hnw
    rw [Bool.not_eq_true] at hnw
    have hub := evaluatePosition_else_eq lvl b (aiChooseColumn lvl b rand)
      Cell.p2 r' hr' (by simp [hnw])
    have hub2 := tierSum_le lvl b r' (aiChooseColumn lvl b rand) Cell.p2
      (if Cell.p2 = Cell.p1 then Cell.p2 else Cell.p1) h6
    rw [hub] at hle
    omega
  exact ⟨main, fun hu => hu.2 _ (main _ hu.1)⟩

/-- A board whose only winning drop for the AI is column 2, where three
of its pieces are stacked. -/
def c7WitBoard : Board := mkBoard
  [[Cell.p1, Cell.p1, Cell.p2, Cell.p1],
   [Cell.empty, Cell.empty, Cell.p2],
   [Cell.empty, Cell.empty, Cell.p2]]

/-- Witness for C7: at level 1 on `c7WitBoard`, column 2 is the unique
winning column and is selected. -/
theorem ai_takes_winning_column_witness :
    aiChooseColumn 1 c7WitBoard (fun _ => 0) = (2 : Fin 7) :=
  (ai_takes_winning_column 1 c7WitBoard (fun _ => 0) (by decide)
    (by decide)).2 (by decide)

/-- A board where the level-7 fork bonuses overtake the winning score:
columns 0, 5 and 6 all win at once for the AI (scoring 1000), but the
non-winning column 3 blocks a vertical threat, extends a diagonal run,
blocks two level-6 runs and earns both fork bonuses, scoring 1011. -/
def c7Board : Board := mkBoard
  [[Cell.p1, Cell.p1, Cell.p2, Cell.p1, Cell.p1, Cell.p2, Cell.p1],
   [Cell.p2, Cell.p2, Cell.p1, Cell.p1, Cell.p1, Cell.p2, Cell.p2],
   [Cell.p2, Cell.p1, Cell.p2, Cell.p1, Cell.p1, Cell.p2, Cell.p2],
   [Cell.p2, Cell.p1, Cell.p1, Cell.empty, Cell.empty, Cell.empty, Cell.p2],
   [Cell.empty, Cell.p2]]

/-- Counterexample to C7's "and any higher level": at level 7 the AI
passes over the immediately winning column 0 (and 5 and 6) and picks the
non-winning column 3. -/
theorem ai_level7_skips_win_counterexample :
    winningMove c7Board (0 : Fin 7) Cell.p2 ∧
    aiChooseColumn 7 c7Board (fun _ => 0) = (3 : Fin 7) ∧
    ¬ winningMove c7Board (3 : Fin 7) Cell.p2 := by
  refine ⟨by decide, by decide, by decide⟩

/-- C8 (amended to levels 3 through 6, the threat being the only one):
when the opponent would win immediately in column 5 and nowhere else, and
no column wins immediately for the AI, the 500-point must-block bonus
makes column 5 the unique maximum — every other column reaches at most
`6 + 80 + 200 + 85 = 371` — so the AI selects column 5.  (With a second
simultaneous threat the tie-break may pick the other one, and level 7's
fork bonuses can exceed 500; see the counterexample.) -/
theorem ai_blocks_opponent_win (lvl : Nat) (b : Board) (rand : Nat → Nat)
    (h3 : 3 ≤ lvl) (h6 : lvl ≤ 6)
    (hthreat : winningMove b (5 : Fin 7) Cell.p1)
    (huniq : ∀ c : Fin 7, winningMove b c Cell.p1 → c = (5 : Fin 7))
    (hnowin : ∀ c : Fin 7, ¬ winningMove b c Cell.p2) :
    aiChooseColumn lvl b rand = (5 : Fin 7) := by
  obtain ⟨r5, hr5, hblk5⟩ := hthreat
  have hex : ∃ c : Fin 7, (findEmptyRow b c).isSome = true :=
    ⟨5, by rw [hr5]; rfl⟩
  obtain ⟨hps, hmax⟩ := aiChooseColumn_spec lvl b rand hex
  have hnw : ∀ (c : Fin 7) (r : Fin 6), findEmptyRow b c = some r →
      aiCheckWin (setCell b r c Cell.p2) r c Cell.p2 = false := by
    intro c r hr
    by_contra hx
    rw [Bool.not_eq_false] at hx
    exact hnowin c ⟨r, hr, hx⟩
  have h5eq := evaluatePosition_else_eq lvl b (5 : Fin 7) Cell.p2 r5 hr5
    (by simp [hnw (5 : Fin 7) r5 hr5])
  have h5ge := tierSum_block_ge lvl b r5 (5 : Fin 7) Cell.p2
    (if Cell.p2 = Cell.p1 then Cell.p2 else Cell.p1) h3
    (by rw [show (if Cell.p2 = Cell.p1 then Cell.p2 else Cell.p1)
          = Cell.p1 from rfl]; exact hblk5)
  by_contra hne
  rw [Option.isSome_iff_exists] at hps
  obtain ⟨r', hr'⟩ := hps
  have hnblk : aiCheckWin (setCell b r' (aiChooseColumn lvl b rand)
      (if Cell.p2 = Cell.p1 then Cell.p2 else Cell.p1)) r'
      (aiChooseColumn lvl b rand)
      (if Cell.p2 = Cell.p1 then Cell.p2 else Cell.p1) = false := by
    rw [show (if Cell.p2 = Cell.p1 then Cell.p2 else Cell.p1)
        = Cell.p1 from rfl]
    by_contra hx
    rw [Bool.not_eq_false] at hx
    exact hne (huniq _ ⟨r', hr', hx⟩)
  have hceq := evaluatePosition_else_eq lvl b (aiChooseColumn lvl b rand)
    Cell.p2 r' hr' (by simp [hnw _ r' hr'])
  have hcle := tierSum_noblock_le lvl b r' (aiChooseColumn lvl b rand)
    Cell.p2 (if Cell.p2 = Cell.p1 then Cell.p2 else Cell.p1) h6 hnblk
  have hm := hmax (5 : Fin 7) (by rw [hr5]; rfl)
  rw [h5eq, hceq] at hm
  omega

/-- A board whose only opponent winning drop is column 5 (three stacked
red pieces), with no winning drop for the AI anywhere. -/
def c8WitBoard : Board := mkBoard
  [[Cell.p2, Cell.p2, Cell.empty, Cell.empty, Cell.empty, Cell.p1,
    Cell.p2],
   [Cell.empty, Cell.empty, Cell.empty, Cell.empty, Cell.empty, Cell.p1],
   [Cell.empty, Cell.empty, Cell.empty, Cell.empty, Cell.empty, Cell.p1]]

/-- Witness for C8: at level 3 on `c8WitBoard`, the unique threat in
column 5 is blocked. -/
theorem ai_blocks_opponent_win_witness :
    aiChooseColumn 3 c8WitBoard (fun _ => 0) = (5 : Fin 7) :=
  ai_blocks_opponent_win 3 c8WitBoard (fun _ => 0) (by decide) (by decide)
    (by decide) (by decide) (by decide)

/-- Two simultaneous opponent threats (columns 1 and 5): both score the
same must-block bonus and the injected tie-break picks column 1. -/
def c8TieBoard : Board := mkBoard
  [[Cell.p2, Cell.p1, Cell.p2, Cell.p2, Cell.empty, Cell.p1, Cell.p2],
   [Cell.p2, Cell.p1, Cell.empty, Cell.empty, Cell.empty, Cell.p1,
    Cell.p2],
   [Cell.empty, Cell.p1, Cell.empty, Cell.empty, Cell.empty, Cell.p1]]

/-- Counterexample to C8 as stated: with a second simultaneous threat in
column 1 the AI's tie-break selects column 1, not the claimed column 5,
although the opponent would win in column 5 and the AI cannot win
anywhere. -/
theorem ai_block_tie_counterexample :
    winningMove c8TieBoard (5 : Fin 7) Cell.p1 ∧
    (∀ c : Fin 7, ¬ winningMove c8TieBoard c Cell.p2) ∧
    aiChooseColumn 3 c8TieBoard (fun _ => 0) = (1 : Fin 7) := by
  refine ⟨by decide, by decide, by decide⟩

/-! ### Button 4: hold-for-score versus drop-on-release (C10) -/

/-- `dropPiece(3)` as the release path calls it: with a landing row the
board gains exactly that one piece. -/
theorem sysDropPiece_board (s : Sys) (col : Fin 7) (now : Nat) (r : Fin 6)
    (hr : findEmptyRow s.game.board col = some r) :
    (sysDropPiece s col now).2.game.board
      = setCell s.game.board r col s.game.currentPlayer := by
  unfold sysDropPiece
  rw [hr]
  dsimp only
  split_ifs <;> simp [checkWin_board]

/-- C10 (amended: the drop on release needs column 3 not to be full): in
the Playing state with button 4 not latched as blocked, (a) a press never
drops a piece, whether it starts the hold, crosses the 2-second threshold
or neither; (b) a release while a hold is in progress that never crossed
the threshold drops exactly one piece, at the lowest empty cell of
column 3; (c) once the hold reaches the threshold the score overlay shows
and the press is marked consumed; (d) a release while the overlay shows
drops nothing. -/
theorem button4_press_holds_release_drops (s : Sys) (now : Nat)
    (hplay : s.game.gameState = GState.playing)
    (hnb : s.button4Blocked = false) :
    ((checkButton4Hold s true now).2.game.board = s.game.board) ∧
    (∀ r : Fin 6, s.showingHoldScore = false → s.button4HoldStart ≠ 0 →
      s.button4WasHeldForScore = false →
      findEmptyRow s.game.board ⟨3, by omega⟩ = some r →
      (checkButton4Hold s false now).2.game.board
        = setCell s.game.board r ⟨3, by omega⟩ s.game.currentPlayer) ∧
    (s.button4HoldStart ≠ 0 → now - s.button4HoldStart ≥ scoreHoldTime →
      (checkButton4Hold s true now).2.showingHoldScore = true ∧
      (checkButton4Hold s true now).2.button4WasHeldForScore = true) ∧
    (s.showingHoldScore = true →
      (checkButton4Hold s false now).2.game.board = s.game.board) := by
  refine ⟨?_, ?_, ?_, ?_⟩
  · unfold checkButton4Hold
    rw [if_neg (by simp [hnb]), if_pos hplay, if_pos rfl]
    dsimp only
    split_ifs <;> rfl
  · intro r hshow hhs hwh hrow
    unfold checkButton4Hold
    rw [if_neg (by simp [hnb]), if_pos hplay, if_neg (by simp)]
    dsimp only
    rw [if_neg (by simp [hshow]), if_pos ⟨Nat.pos_of_ne_zero hhs, hwh⟩]
    exact sysDropPiece_board s ⟨3, by omega⟩ now r hrow
  · intro hhs hth
    unfold checkButton4Hold
    rw [if_neg (by simp [hnb]), if_pos hplay, if_pos rfl, if_neg hhs,
      if_pos hth]
    dsimp only
    split_ifs with hsh
    · exact ⟨hsh, rfl⟩
    · exact ⟨rfl, rfl⟩
  · intro hshow
    unfold checkButton4Hold
    rw [if_neg (by simp [hnb]), if_pos hplay, if_neg (by simp)]
    dsimp only
    rw [if_pos hshow]

/-- Column 3 filled with six alternating pieces. -/
def c10FullBoard : Board := mkBoard
  [[Cell.empty, Cell.empty, Cell.empty, Cell.p1],
   [Cell.empty, Cell.empty, Cell.empty, Cell.p2],
   [Cell.empty, Cell.empty, Cell.empty, Cell.p1],
   [Cell.empty, Cell.empty, Cell.empty, Cell.p2],
   [Cell.empty, Cell.empty, Cell.empty, Cell.p1],
   [Cell.empty, Cell.empty, Cell.empty, Cell.p2]]

/-- A playing state nine milliseconds into a button-4 hold, with column 3
full. -/
def c10Sys : Sys :=
  { game := { demoStart with board := c10FullBoard }
    button4HoldStart := 1
    button4WasHeldForScore := false
    button4Blocked := false
    showingHoldScore := false
    scorePauseStart := 0
    turnStartTime := 0
    buttonState := fun _ => false
    lastButtonPress := fun _ => 0
    gameMode := 0
    aiLevel := 1
    aiMode := false
    modeConfirmed := true
    modeSelectStart := 0
    modeConfirmStart := 0
    scoreDisplayStart := 0
    winAnimationStart := 0 }

/-- Counterexample to C10 as stated: on `c10Sys` the hold is released
well before the 2-second threshold, yet no piece is dropped — column 3 is
full and the release leaves the board unchanged. -/
theorem button4_release_full_counterexample :
    c10Sys.game.gameState = GState.playing ∧
    c10Sys.button4HoldStart ≠ 0 ∧
    c10Sys.button4WasHeldForScore = false ∧
    10 - c10Sys.button4HoldStart < scoreHoldTime ∧
    (checkButton4Hold c10Sys false 10).2.game.board = c10Sys.game.board := by
  refine ⟨by decide, by decide, by decide, by decide, by decide⟩

/-- The same hold state over an empty board. -/
def c10OpenSys : Sys := { c10Sys with game := demoStart }

/-- Witness for C10: on the empty board the release drops one piece at
the bottom of column 3. -/
theorem button4_press_holds_release_drops_witness :
    (checkButton4Hold c10OpenSys false 10).2.game.board
      = setCell emptyBoard ⟨0, by omega⟩ ⟨3, by omega⟩ Cell.p1 :=
  (button4_press_holds_release_drops c10OpenSys 10 (by decide)
      (by decide)).2.1 ⟨0, by omega⟩ (by decide) (by decide) (by decide)
    (by decide)

end Connect4
